import Mathlib

/-!
# Verification of the Bandersnatch point-serialization layer

This file gives a shallow embedding, in Lean 4, of the curve-point
(de)serialization subsystem of the Bandersnatch repository
(`bandersnatch/pointserializer/basic_serializers.go`, the curve-point /
field-element transition routines, and the stream-framing helper
`consumeExpectRead`), together with proofs about that embedding.

The base field of the Bandersnatch curve is `ZMod p` for the 255-bit prime
`p` below.  The field-element type itself is an external collaborator of
the verified subsystem (the Go code only consumes its contract: sign,
Jacobi symbol, square root, inverse, canonical 32-byte encoding), so its
operations are modelled here directly over `ZMod p`:

* `Sign` and `Jacobi` are defined by the documented contract;
* the (possibly randomized) square-root routine is modelled as an
  arbitrary function `sqrt : F → Option F` satisfying `SqrtSpec`
  (a returned root really squares to the input, and a root is returned
  whenever one exists) — theorems are quantified over any such function;
* the subgroup-membership leaf `legendreCheckE1_affineY`, whose source is
  not part of the analysed tree, is kept as an abstract boolean function
  `e1` on the field, constrained only where the specification constrains
  it (the neutral element lies in the subgroup, the affine two-torsion
  point does not).

Primality of `p` (needed for field reasoning) is established with a Lucas
certificate, evaluated by a fuel-indexed fast modular exponentiation.
-/

set_option maxRecDepth 100000

namespace Bandersnatch

/-- The size of the Bandersnatch base field (a 255-bit prime). -/
def p : ℕ := 52435875175126190479447740508185965837690552500527637822603658699938581184513

instance : NeZero p := ⟨by decide⟩

/-- The Bandersnatch base field. -/
abbrev F := ZMod p

/-- Fuel-indexed binary modular exponentiation `b ^ e % m`.
The fuel only bounds the recursion depth; `300` suffices for any
exponent below `2 ^ 300`. -/
def powModF : ℕ → ℕ → ℕ → ℕ → ℕ
  | 0, _, _, m => 1 % m
  | fuel + 1, b, e, m =>
    if e = 0 then 1 % m
    else if e % 2 = 1 then (b * powModF fuel ((b * b) % m) (e / 2) m) % m
    else powModF fuel ((b * b) % m) (e / 2) m

theorem powModF_eq (m : ℕ) : ∀ (fuel : ℕ) (b e : ℕ), e < 2 ^ fuel →
    powModF fuel b e m = b ^ e % m := by
  intro fuel
  induction fuel with
  | zero =>
    intro b e he
    interval_cases e
    simp [powModF]
  | succ fuel ih =>
    intro b e he
    by_cases he0 : e = 0
    · subst he0; simp [powModF]
    · have hdiv : e / 2 < 2 ^ fuel := by
        have h2 : e < 2 ^ fuel * 2 := by
          rw [pow_succ] at he; exact he
        omega
      have hrec : powModF fuel ((b * b) % m) (e / 2) m = (b * b) ^ (e / 2) % m := by
        rw [ih _ _ hdiv, Nat.pow_mod, Nat.mod_mod_of_dvd _ dvd_rfl]
        rw [← Nat.pow_mod]
      have hsplit : e = 2 * (e / 2) + e % 2 := (Nat.div_add_mod e 2).symm
      by_cases hodd : e % 2 = 1
      · have hpow : b ^ e = b * (b * b) ^ (e / 2) := by
          conv_lhs => rw [hsplit, hodd]
          rw [pow_add, pow_mul, pow_one, mul_comm]
          ring_nf
        simp only [powModF, he0, if_false, hodd, if_true]
        rw [hrec, hpow, Nat.mul_mod, Nat.mod_mod_of_dvd _ dvd_rfl, ← Nat.mul_mod]
      · have heven : e % 2 = 0 := by omega
        have hpow : b ^ e = (b * b) ^ (e / 2) := by
          conv_lhs => rw [hsplit, heven, Nat.add_zero]
          rw [pow_mul]
          ring_nf
        simp only [powModF, he0, if_false, hodd, if_false]
        rw [hrec, hpow]

/-- Cast a `powModF` evaluation into the field. -/
theorem castPow_eq (b e : ℕ) (he : e < 2 ^ 300) :
    ((b : ℕ) : F) ^ e = ((powModF 300 b e p : ℕ) : F) := by
  rw [powModF_eq p 300 b e he, ← Nat.cast_pow]
  rw [ZMod.natCast_eq_natCast_iff]
  exact (Nat.mod_modEq _ _).symm

theorem pPred_lt : p - 1 < 2 ^ 300 := by decide

theorem pPred_factorization :
    p - 1 = 2 ^ 32 * (3 * (11 * (19 * (10177 * (125527 * (859267 * (906349 ^ 2 *
      (2508409 * (2529403 * (52437899 * 254760293 ^ 2)))))))))) := by decide

theorem natCast_ne_one_of (r : ℕ) (h1 : ¬ (r % p = 1 % p)) : ((r : ℕ) : F) ≠ 1 := by
  intro h
  rw [show (1 : F) = ((1 : ℕ) : F) by norm_cast] at h
  exact h1 ((ZMod.natCast_eq_natCast_iff' r 1 p).mp h)

theorem seven_pow_ne_one (q : ℕ) (h : ¬ (powModF 300 7 ((p - 1) / q) p % p = 1 % p)) :
    (7 : F) ^ ((p - 1) / q) ≠ 1 := by
  have hcast : (7 : F) = ((7 : ℕ) : F) := by norm_cast
  rw [hcast, castPow_eq 7 ((p - 1) / q) (by
    have : (p - 1) / q ≤ p - 1 := Nat.div_le_self _ _
    exact lt_of_le_of_lt this pPred_lt)]
  exact natCast_ne_one_of _ h

/-- Fueled binary-splitting trial-division check: `true` means no `m`
with `lo ≤ m < lo + len` divides `n`.  Out of fuel fails closed. -/
def noFactorsIn : ℕ → ℕ → ℕ → ℕ → Bool
  | 0, _, _, _ => false
  | fuel + 1, n, lo, len =>
    if len = 0 then true
    else if len = 1 then n % lo != 0
    else
      noFactorsIn fuel n lo (len / 2) &&
      noFactorsIn fuel n (lo + len / 2) (len - len / 2)

theorem noFactorsIn_sound (fuel n : ℕ) : ∀ lo len,
    noFactorsIn fuel n lo len = true →
    ∀ m, lo ≤ m → m < lo + len → ¬ n % m = 0 := by
  induction fuel with
  | zero =>
    intro lo len h
    simp [noFactorsIn] at h
  | succ fuel ih =>
    intro lo len h m hm1 hm2
    by_cases h0 : len = 0
    · omega
    by_cases h1 : len = 1
    · subst h1
      have hml : m = lo := by omega
      subst hml
      simp only [noFactorsIn, if_neg h0, if_pos rfl] at h
      simpa using h
    · simp only [noFactorsIn, if_neg h0, if_neg h1] at h
      obtain ⟨ha, hb⟩ := Bool.and_eq_true_iff.mp h
      by_cases hsplit : m < lo + len / 2
      · exact ih lo (len / 2) ha m hm1 hsplit
      · exact ih (lo + len / 2) (len - len / 2) hb m (by omega) (by omega)

/-- Primality by trial division up to a square bound, with the search
done by the kernel-friendly `noFactorsIn`. -/
theorem prime_of_noFactorsIn {n fuel len : ℕ} (h2 : 2 ≤ n)
    (hlen : n < (2 + len) * (2 + len))
    (h : noFactorsIn fuel n 2 len = true) : Nat.Prime n := by
  rw [Nat.prime_def_le_sqrt]
  refine ⟨h2, fun m hm2 hmsqrt hdvd => ?_⟩
  have hmm : m * m ≤ n := Nat.le_sqrt.mp hmsqrt
  have hmlt : m < 2 + len := by
    by_contra hge
    push_neg at hge
    have := Nat.mul_le_mul hge hge
    omega
  exact noFactorsIn_sound fuel n 2 len h m hm2 (by omega)
    (Nat.mod_eq_zero_of_dvd hdvd)

theorem prime_52437899 : Nat.Prime 52437899 :=
  @prime_of_noFactorsIn 52437899 20 7240 (by norm_num) (by norm_num) (by decide)

theorem prime_254760293 : Nat.Prime 254760293 :=
  @prime_of_noFactorsIn 254760293 20 15960 (by norm_num) (by norm_num) (by decide)

theorem p_prime : Nat.Prime p := by
  apply lucas_primality p (7 : F)
  · have hcast : (7 : F) = ((7 : ℕ) : F) := by norm_cast
    rw [hcast, castPow_eq 7 (p - 1) pPred_lt]
    have : powModF 300 7 (p - 1) p = 1 := by decide
    rw [this, Nat.cast_one]
  · intro q hq hdvd
    have hmem : q = 2 ∨ q = 3 ∨ q = 11 ∨ q = 19 ∨ q = 10177 ∨ q = 125527 ∨
        q = 859267 ∨ q = 906349 ∨ q = 2508409 ∨ q = 2529403 ∨ q = 52437899 ∨
        q = 254760293 := by
      rw [pPred_factorization] at hdvd
      have peel : ∀ m : ℕ, Nat.Prime m → q ∣ m → q = m := fun m hm hd =>
        (Nat.prime_dvd_prime_iff_eq hq hm).mp hd
      rcases (Nat.Prime.dvd_mul hq).mp hdvd with h | h
      · exact Or.inl (peel 2 Nat.prime_two (hq.dvd_of_dvd_pow h))
      rcases (Nat.Prime.dvd_mul hq).mp h with h | h
      · exact Or.inr (Or.inl (peel 3 Nat.prime_three h))
      rcases (Nat.Prime.dvd_mul hq).mp h with h | h
      · exact Or.inr (Or.inr (Or.inl (peel 11 (by norm_num) h)))
      rcases (Nat.Prime.dvd_mul hq).mp h with h | h
      · exact Or.inr (Or.inr (Or.inr (Or.inl (peel 19 (by norm_num) h))))
      rcases (Nat.Prime.dvd_mul hq).mp h with h | h
      · exact Or.inr (Or.inr (Or.inr (Or.inr (Or.inl (peel 10177 (by norm_num) h)))))
      rcases (Nat.Prime.dvd_mul hq).mp h with h | h
      · exact Or.inr (Or.inr (Or.inr (Or.inr (Or.inr (Or.inl (peel 125527 (by norm_num) h))))))
      rcases (Nat.Prime.dvd_mul hq).mp h with h | h
      · exact Or.inr (Or.inr (Or.inr (Or.inr (Or.inr (Or.inr (Or.inl
          (peel 859267 (by norm_num) h)))))))
      rcases (Nat.Prime.dvd_mul hq).mp h with h | h
      · exact Or.inr (Or.inr (Or.inr (Or.inr (Or.inr (Or.inr (Or.inr (Or.inl
          (peel 906349 (by norm_num) (hq.dvd_of_dvd_pow h)))))))))
      rcases (Nat.Prime.dvd_mul hq).mp h with h | h
      · exact Or.inr (Or.inr (Or.inr (Or.inr (Or.inr (Or.inr (Or.inr (Or.inr (Or.inl
          (peel 2508409 (by norm_num) h)))))))))
      rcases (Nat.Prime.dvd_mul hq).mp h with h | h
      · exact Or.inr (Or.inr (Or.inr (Or.inr (Or.inr (Or.inr (Or.inr (Or.inr (Or.inr (Or.inl
          (peel 2529403 (by norm_num) h))))))))))
      rcases (Nat.Prime.dvd_mul hq).mp h with h | h
      · exact Or.inr (Or.inr (Or.inr (Or.inr (Or.inr (Or.inr (Or.inr (Or.inr (Or.inr (Or.inr
          (Or.inl (peel 52437899 prime_52437899 h)))))))))))
      · exact Or.inr (Or.inr (Or.inr (Or.inr (Or.inr (Or.inr (Or.inr (Or.inr (Or.inr (Or.inr
          (Or.inr (peel 254760293 prime_254760293 (hq.dvd_of_dvd_pow h))))))))))))
    rcases hmem with rfl | rfl | rfl | rfl | rfl | rfl | rfl | rfl | rfl | rfl | rfl | rfl
    · exact seven_pow_ne_one 2 (by decide)
    · exact seven_pow_ne_one 3 (by decide)
    · exact seven_pow_ne_one 11 (by decide)
    · exact seven_pow_ne_one 19 (by decide)
    · exact seven_pow_ne_one 10177 (by decide)
    · exact seven_pow_ne_one 125527 (by decide)
    · exact seven_pow_ne_one 859267 (by decide)
    · exact seven_pow_ne_one 906349 (by decide)
    · exact seven_pow_ne_one 2508409 (by decide)
    · exact seven_pow_ne_one 2529403 (by decide)
    · exact seven_pow_ne_one 52437899 (by decide)
    · exact seven_pow_ne_one 254760293 (by decide)

instance : Fact (Nat.Prime p) := ⟨p_prime⟩

/-! ## The field-element contract

The Go `FieldElement` type is an external collaborator; the serializer
consumes: constants, equality, `Sign`, `CmpAbs`, `Jacobi`, `SquareRoot`,
inversion, and the canonical 32-byte value `val ∈ [0, p)`.  `Sign` and
`Jacobi` have exact documented semantics and are defined here; the square
root is modelled as an oracle (`SqrtSpec`). -/

/-- Sign of a field element: `+1` on `[1, (p-1)/2]`, `-1` on
`[(p+1)/2, p-1]`, `0` only for zero (spec §3, "Sign of a field element"). -/
def Sign (x : F) : ℤ :=
  if x = 0 then 0 else if x.val ≤ (p - 1) / 2 then 1 else -1

/-- Jacobi symbol on the base field (prime field, so this is the Legendre
symbol): `0` on zero, `+1` on non-zero squares, `-1` on non-squares. -/
def Jacobi (x : F) : ℤ :=
  if x = 0 then 0 else if IsSquare x then 1 else -1

/-- Contract of the external square-root routine `FieldElement.SquareRoot`:
any returned value squares to the input, and some value is returned
whenever the input is a square.  The routine may be randomized, so no
particular choice of root is assumed. -/
structure SqrtSpec (sqrt : F → Option F) : Prop where
  sq : ∀ x r, sqrt x = some r → r * r = x
  complete : ∀ x, IsSquare x → (sqrt x).isSome

/-- A concrete (exhaustive-search) square-root function; it satisfies
`SqrtSpec` and serves to instantiate oracle-quantified theorems. -/
def listSqrt (x : F) : Option F :=
  ((List.range p).find? (fun n : ℕ => ((n : F) * (n : F) == x))).map (fun n : ℕ => (n : F))

/-- Multiplicative inverse by Fermat; agrees with field inversion. -/
def finv (x : F) : F := x ^ (p - 2)

/-- Curve parameter `a = -5` (`CurveParameterA` in the source). -/
def CurveParameterA_fe : F := -5

/-- Curve parameter `d = -15 - 10*sqrt 2` (`CurveParameterD` in the source). -/
def CurveParameterD_fe : F :=
  45022363124591815672509500913686876175488063829319466900776701791074614335719

theorem listSqrt_spec : SqrtSpec listSqrt := by
  constructor
  · intro x r hr
    simp only [listSqrt, Option.map_eq_some'] at hr
    obtain ⟨n, hn, rfl⟩ := hr
    have := List.find?_some hn
    simpa using this
  · intro x hx
    obtain ⟨r, hr⟩ := hx
    have hmem : r.val ∈ List.range p := by
      rw [List.mem_range]
      exact ZMod.val_lt r
    have hpred : ((r.val : F) * (r.val : F) == x) = true := by
      rw [ZMod.natCast_rightInverse r]
      simp only [beq_iff_eq]
      exact hr.symm
    unfold listSqrt
    rw [Option.isSome_map']
    rw [List.find?_isSome]
    exact ⟨r.val, hmem, hpred⟩

theorem finv_eq_inv (x : F) : finv x = x⁻¹ := by
  by_cases hx : x = 0
  · subst hx
    rw [finv, zero_pow (by decide : p - 2 ≠ 0), inv_zero]
  · have h2 : x ^ (p - 2) * x = 1 := by
      rw [← pow_succ, show p - 2 + 1 = p - 1 from by decide]
      exact ZMod.pow_card_sub_one_eq_one hx
    rw [finv]
    exact eq_inv_of_mul_eq_one_left h2

theorem dvd_lt_false {m : ℕ} (h1 : 0 < m) (h2 : m < p) : ¬ (p ∣ m) := by
  intro hdvd
  exact absurd (Nat.le_of_dvd h1 hdvd) (by omega)

theorem not_isSquare_A : ¬ IsSquare CurveParameterA_fe := by
  have hcast : CurveParameterA_fe = ((p - 5 : ℕ) : F) := by
    rw [CurveParameterA_fe, Nat.cast_sub (by decide : 5 ≤ p), ZMod.natCast_self]
    norm_num
  have hne : CurveParameterA_fe ≠ 0 := by
    rw [hcast]
    rw [Ne, ZMod.natCast_zmod_eq_zero_iff_dvd]
    exact dvd_lt_false (by decide) (by decide)
  intro hs
  rw [ZMod.euler_criterion p hne, hcast] at hs
  rw [castPow_eq (p - 5) (p / 2) (by decide)] at hs
  exact absurd hs (natCast_ne_one_of _ (by decide))

theorem not_isSquare_D : ¬ IsSquare CurveParameterD_fe := by
  have hcast : CurveParameterD_fe =
      ((45022363124591815672509500913686876175488063829319466900776701791074614335719 : ℕ) : F) := by
    rw [CurveParameterD_fe]
    norm_cast
  have hne : CurveParameterD_fe ≠ 0 := by
    rw [hcast, Ne, ZMod.natCast_zmod_eq_zero_iff_dvd]
    exact dvd_lt_false (by decide) (by decide)
  intro hs
  rw [ZMod.euler_criterion p hne, hcast] at hs
  rw [castPow_eq _ (p / 2) (by decide)] at hs
  exact absurd hs (natCast_ne_one_of _ (by decide))

/-! ## Curve points and validation predicates

Affine extended twisted Edwards coordinates (`Point_axtw` in the source):
`(x, y, t)` with the type invariant `t = x * y`.  The `_full` and
`_subgroup` Go types share this coordinate record; the subgroup type
works modulo the affine two-torsion point `A = (0, -1)` (two
representatives `(x, y)` and `(-x, -y)` denote the same element). -/

structure Point_axtw where
  x : F
  y : F
  t : F
deriving DecidableEq

/-- The zero value of the point types: the standard NaP. -/
def Point_axtw.zero : Point_axtw := ⟨0, 0, 0⟩

/-- NaP (not-a-point) detection: `x = y = 0`. -/
def Point_axtw.IsNaP (P : Point_axtw) : Prop := P.x = 0 ∧ P.y = 0

instance (P : Point_axtw) : Decidable P.IsNaP := by
  unfold Point_axtw.IsNaP; infer_instance

/-- Curve membership of an `axtw` coordinate triple, using the extended
coordinate `t`:  `a·x² + y² = 1 + d·t²`. -/
def isPointOnCurve (P : Point_axtw) : Prop :=
  CurveParameterA_fe * P.x ^ 2 + P.y ^ 2 = 1 + CurveParameterD_fe * P.t ^ 2

instance (P : Point_axtw) : Decidable (isPointOnCurve P) := by
  unfold isPointOnCurve; infer_instance

/-- The affine curve equation `a·x² + y² = 1 + d·x²·y²`. -/
def onCurveXY (x y : F) : Prop :=
  CurveParameterA_fe * x ^ 2 + y ^ 2 = 1 + CurveParameterD_fe * x ^ 2 * y ^ 2

instance (x y : F) : Decidable (onCurveXY x y) := by
  unfold onCurveXY; infer_instance

/-- The affine subgroup Legendre check on the x-coordinate:
`Jacobi(1 - a·x²) ≥ 0` (spec §4.C). -/
def legendreCheckA_affineX (x : F) : Prop :=
  0 ≤ Jacobi (1 - CurveParameterA_fe * x ^ 2)

/-- Exact subgroup membership of an affine curve point, as computed by
`IsInSubgroup` in the source: the Legendre check on `x` together with the
`E1` Legendre check on `y`.  The leaf `legendreCheckE1_affineY` is not
part of the analysed tree and is abstracted as the function `e1`. -/
instance (x : F) : Decidable (legendreCheckA_affineX x) := by
  unfold legendreCheckA_affineX; infer_instance

def IsInSubgroup (e1 : F → Bool) (x y : F) : Prop :=
  legendreCheckA_affineX x ∧ e1 y = true

instance (e1 : F → Bool) (x y : F) : Decidable (IsInSubgroup e1 x y) := by
  unfold IsInSubgroup; infer_instance

/-- Equality of subgroup points modulo the affine two-torsion point
`A = (0, -1)`: the representatives `(x, y, t)` and `(-x, -y, t)` denote
the same Banderwagon element. -/
def eqModA (P Q : Point_axtw) : Prop :=
  (P.x = Q.x ∧ P.y = Q.y ∧ P.t = Q.t) ∨ (P.x = -Q.x ∧ P.y = -Q.y ∧ P.t = Q.t)

/-- The trust-level token (`IsPointTrusted` in the source):
`TrustedInput` skips (some) checks; `UntrustedInput` validates fully. -/
structure IsPointTrusted where
  v : Bool
deriving DecidableEq

def TrustedInput : IsPointTrusted := ⟨true⟩

def UntrustedInput : IsPointTrusted := ⟨false⟩

/-- The error taxonomy of the serialization subsystem. -/
inductive Err where
  | ErrCannotSerializeNaP
  | ErrCannotSerializePointAtInfinity
  | ErrWillNotSerializePointOutsideSubgroup
  | ErrXNotOnCurve
  | ErrXNotInSubgroup
  | ErrYNotOnCurve
  | ErrNotOnCurve
  | ErrNotInSubgroup
  | ErrInvalidSign
  | ErrInvalidZeroSignX
  | ErrUnexpectedNegativeZero
  | ErrWrongSignY
  | ErrCannotDeserializeNaP
  | ErrCannotDeserializeXYAllZero
  | ErrDidNotReadExpectedString
  | ErrEOF
  | ErrUnexpectedEOF
  | ErrPrefixMismatch
  | ErrValueExceedsFieldSize
deriving DecidableEq

/-! ## Coordinate recovery (`recoverYFromXAffine`, `recoverXFromYAffine`)

Both routines return a coordinate and an optional error, mirroring the
Go signatures.  The square-root oracle is passed explicitly. -/

/-- Embedding of `recoverYFromXAffine`: solves `y² = (1 - a·x²)/(1 - d·x²)`
(numerator computed as `5·x² + 1` as in the source).  With
`legendreCheckX` set, a negative Jacobi symbol of the numerator means the
x-coordinate belongs to no subgroup point; `y` is still recovered when
possible for diagnostics. -/
def recoverYFromXAffine (sqrt : F → Option F) (x : F) (legendreCheckX : Bool) :
    F × Option Err :=
  let x2 := x * x
  let num := 5 * x2 + 1
  let denom := 1 - CurveParameterD_fe * x2
  if legendreCheckX ∧ Jacobi num < 0 then
    match sqrt (num * finv denom) with
    | some y => (y, some Err.ErrXNotInSubgroup)
    | none => (0, some Err.ErrXNotOnCurve)
  else
    match sqrt (num * finv denom) with
    | some y => (y, none)
    | none => (0, some Err.ErrXNotOnCurve)

/-- Embedding of `recoverXFromYAffine`: solves `x² = (y² - 1)/(d·y² - a)`;
a vanishing denominator corresponds to the points at infinity. -/
def recoverXFromYAffine (sqrt : F → Option F) (y : F) : F × Option Err :=
  let y2 := y * y
  let num := y2 - 1
  let denom := CurveParameterD_fe * y2 - CurveParameterA_fe
  if denom = 0 then (0, some Err.ErrYNotOnCurve)
  else
    match sqrt (num * finv denom) with
    | some x => (x, none)
    | none => (0, some Err.ErrYNotOnCurve)

/-! ## Point construction from field elements -/

/-- Result of the `CurvePointFrom*` constructors: a returned point with
optional error, or a panic (trusted-input contract violations panic). -/
inductive CRes where
  | ok (point : Point_axtw)
  | error (point : Point_axtw) (e : Err)
  | panic (e : Err)
deriving DecidableEq

/-- Modelled from the spec: the source of
`Point_axtw_subgroup.SetFromSubgroupPoint` is not part of the analysed
tree.  Per its call sites and spec §4.C, for untrusted input it verifies
exact subgroup membership of the (non-NaP) input and copies its
coordinates into the receiver, returning `true`; for trusted input only
non-NaP-ness is checked; on failure it returns `false` and leaves the
receiver unchanged. -/
def SetFromSubgroupPoint (e1 : F → Bool) (receiver input : Point_axtw)
    (trusted : Bool) : Point_axtw × Bool :=
  if input.IsNaP then (receiver, false)
  else if trusted then (input, true)
  else if IsInSubgroup e1 input.x input.y then (input, true)
  else (receiver, false)

/-- Embedding of `CurvePointFromXYAffine_full`. -/
def CurvePointFromXYAffine_full (x y : F) (trustLevel : IsPointTrusted) :
    Point_axtw × Option Err :=
  let point : Point_axtw := ⟨x, y, x * y⟩
  if trustLevel.v then (point, none)
  else if point.IsNaP then
    (Point_axtw.zero,
      some (if x = 0 ∧ y = 0 then Err.ErrCannotDeserializeXYAllZero
            else Err.ErrCannotDeserializeNaP))
  else if ¬ isPointOnCurve point then (Point_axtw.zero, some Err.ErrNotOnCurve)
  else (point, none)

/-- Embedding of `CurvePointFromXYAffine_subgroup`. -/
def CurvePointFromXYAffine_subgroup (e1 : F → Bool) (x y : F)
    (trustLevel : IsPointTrusted) : Point_axtw × Option Err :=
  match CurvePointFromXYAffine_full x y trustLevel with
  | (_, some e) => (Point_axtw.zero, some e)
  | (pf, none) =>
    let r := SetFromSubgroupPoint e1 Point_axtw.zero pf trustLevel.v
    if r.2 then (r.1, none) else (r.1, some Err.ErrNotInSubgroup)

/-- Embedding of `CurvePointFromXAndSignY_full`.  The y-recovery is
performed irrespective of the trust level; for trusted input a failure
panics rather than returning the error. -/
def CurvePointFromXAndSignY_full (sqrt : F → Option F) (x : F) (signY : ℤ)
    (trustLevel : IsPointTrusted) : CRes :=
  if ¬ (signY = 1 ∨ signY = -1) then
    if trustLevel.v then .panic .ErrInvalidSign
    else .error Point_axtw.zero .ErrInvalidSign
  else
    match recoverYFromXAffine sqrt x false with
    | (_, some e) =>
      if trustLevel.v then .panic e else .error Point_axtw.zero e
    | (y0, none) =>
      let y := if Sign y0 ≠ signY then -y0 else y0
      .ok ⟨x, y, x * y⟩

/-- Embedding of `CurvePointFromXAndSignY_subgroup`. -/
def CurvePointFromXAndSignY_subgroup (sqrt : F → Option F) (e1 : F → Bool)
    (x : F) (signY : ℤ) (trustLevel : IsPointTrusted) : CRes :=
  if ¬ (signY = 1 ∨ signY = -1) then
    if trustLevel.v then .panic .ErrInvalidSign
    else .error Point_axtw.zero .ErrInvalidSign
  else if trustLevel.v then
    match CurvePointFromXAndSignY_full sqrt x signY TrustedInput with
    | .panic e => .panic e
    | .error _ e => .panic e
    | .ok pf =>
      let r := SetFromSubgroupPoint e1 Point_axtw.zero pf true
      if r.2 then .ok r.1 else .panic .ErrNotInSubgroup
  else
    match recoverYFromXAffine sqrt x true with
    | (_, some e) => .error Point_axtw.zero e
    | (y0, none) =>
      let y := if Sign y0 ≠ signY then -y0 else y0
      if e1 y then .ok ⟨x, y, x * y⟩
      else .error Point_axtw.zero .ErrNotInSubgroup

/-- Embedding of `CurvePointFromYAndSignX_full`.  A zero x-sign is
accepted exactly for `y = ±1`; the out-of-range sign error is returned
(not panicked) even for trusted input, as in the source. -/
def CurvePointFromYAndSignX_full (sqrt : F → Option F) (y : F) (signX : ℤ)
    (trustLevel : IsPointTrusted) : CRes :=
  if signX = 0 then
    if y = 1 then .ok ⟨0, 1, 0⟩
    else if y = -1 then .ok ⟨0, -1, 0⟩
    else .error Point_axtw.zero .ErrInvalidZeroSignX
  else if ¬ (signX = 1 ∨ signX = -1) then
    .error Point_axtw.zero .ErrInvalidSign
  else
    match recoverXFromYAffine sqrt y with
    | (_, some e) =>
      if trustLevel.v then .panic e else .error Point_axtw.zero e
    | (x0, none) =>
      let x := if Sign x0 ≠ signX then -x0 else x0
      .ok ⟨x, y, x * y⟩

/-- Embedding of `CurvePointFromYAndSignX_subgroup`. -/
def CurvePointFromYAndSignX_subgroup (sqrt : F → Option F) (e1 : F → Bool)
    (y : F) (signX : ℤ) (trustLevel : IsPointTrusted) : CRes :=
  match CurvePointFromYAndSignX_full sqrt y signX trustLevel with
  | .panic e => .panic e
  | .error _ e => .error Point_axtw.zero e
  | .ok pf =>
    let r := SetFromSubgroupPoint e1 Point_axtw.zero pf trustLevel.v
    if r.2 then .ok r.1 else .error Point_axtw.zero .ErrNotInSubgroup

/-- Embedding of `CurvePointFromXTimesSignY_subgroup`: recovers `y` from
`x·sign(y)` (the Legendre subgroup check runs exactly for untrusted
input) and normalizes the representative to `sign(y) ≥ 0`. -/
def CurvePointFromXTimesSignY_subgroup (sqrt : F → Option F) (xSignY : F)
    (trustLevel : IsPointTrusted) : CRes :=
  match recoverYFromXAffine sqrt xSignY (! trustLevel.v) with
  | (_, some e) => .error Point_axtw.zero e
  | (y0, none) =>
    let y := if Sign y0 < 0 then -y0 else y0
    .ok ⟨xSignY, y, xSignY * y⟩

/-- Embedding of `CurvePointFromXYTimesSignY_subgroup`: checks
`Sign(y·sign(y)) > 0`, then (untrusted only) the subgroup Legendre
condition and the curve equation, with the on-curve failure taking
precedence in the reported error. -/
def CurvePointFromXYTimesSignY_subgroup (xSignY ySignY : F)
    (trustLevel : IsPointTrusted) : CRes :=
  if ¬ trustLevel.v ∧ Sign ySignY ≤ 0 then .error Point_axtw.zero .ErrWrongSignY
  else
    let point : Point_axtw := ⟨xSignY, ySignY, xSignY * ySignY⟩
    if trustLevel.v then .ok point
    else
      let acc := 5 * (xSignY * xSignY) + 1
      let errSub : Option Err :=
        if Jacobi acc < 0 then some Err.ErrNotInSubgroup else none
      let acc2 := acc - ySignY * ySignY + CurveParameterD_fe * (point.t * point.t)
      let errFinal : Option Err :=
        if ¬ acc2 = 0 then some Err.ErrNotOnCurve else errSub
      match errFinal with
      | some e => .error Point_axtw.zero e
      | none => .ok point

/-- Embedding of `CurvePointFromYXTimesSignY_subgroup`: identical to
`CurvePointFromXYTimesSignY_subgroup` up to argument order. -/
def CurvePointFromYXTimesSignY_subgroup (ySignY xSignY : F)
    (trustLevel : IsPointTrusted) : CRes :=
  CurvePointFromXYTimesSignY_subgroup xSignY ySignY trustLevel

/-! ## `MapToFieldElement` -/

/-- The point-capability view consumed by the serializers
(`CurvePointPtrInterfaceRead`): the three predicates plus the
(sign-ambiguous, decaf) affine coordinates. -/
structure PointView where
  isNaP : Bool
  isAtInfinity : Bool
  isInSubgroup : Bool
deriving DecidableEq

structure CurvePointRead where
  view : PointView
  x : F
  y : F
deriving DecidableEq

inductive MRes where
  | panic
  | ok (v : F)
deriving DecidableEq

/-- Embedding of `MapToFieldElement`: `X/Y` on the decaf coordinates
(the projective ratio used by the source equals the affine one);
panics for points at infinity and NaPs. -/
def MapToFieldElement (input : CurvePointRead) : MRes :=
  if input.view.isAtInfinity then .panic
  else if input.view.isNaP then .panic
  else .ok (input.x * finv input.y)

/-! ## Byte-level field codec (component A)

The `valuesSerializer*` types live in a source file that is not part of
the analysed tree; their behaviour is modelled from spec §4.A: a field
element is carried in a 32-byte word, read as a 256-bit big-endian
integer whose most significant bits hold the bit-prefix header and (for
the compressed formats) one sign bit; the remaining bits hold the
canonical representative, which must be `< p`. -/

abbrev Byte := Fin 256

def natToBytesLE : ℕ → ℕ → List Byte
  | 0, _ => []
  | k + 1, v => (⟨v % 256, Nat.mod_lt v (by decide)⟩ : Byte) :: natToBytesLE k (v / 256)

def bytesToNatLE : List Byte → ℕ
  | [] => 0
  | b :: rest => b.val + 256 * bytesToNatLE rest

/-- A bit-prefix header (`common.BitHeader`): `bits` prefix bits stored in
a field of `len` bits at the top of the big-endian interpretation. -/
structure BitHeader where
  bits : ℕ
  len : ℕ
deriving DecidableEq

/-- Modelled from the spec: serialization side of the
`valuesSerializerHeaderFe` codec (spec §4.A).  The 256-bit value is the
header in the top `len` bits followed by the canonical representative;
the word is emitted in the configured byte order. -/
def serializeFeHeader (endianLittle : Bool) (h : BitHeader) (x : F) : List Byte :=
  let V := h.bits * 2 ^ (256 - h.len) + x.val
  let le := natToBytesLE 32 V
  if endianLittle then le else le.reverse

/-- Modelled from the spec: deserialization side of the
`valuesSerializerHeaderFe` codec.  Header bits are compared first
(mismatch is a header error), then the residual integer is range-checked
against `p` (`ErrValueExceedsFieldSize`). -/
def deserializeFeHeader (endianLittle : Bool) (h : BitHeader) (buf : List Byte) :
    Except Err F :=
  let V := bytesToNatLE (if endianLittle then buf else buf.reverse)
  if ¬ (V / 2 ^ (256 - h.len) = h.bits) then .error .ErrPrefixMismatch
  else
    let v := V % 2 ^ (256 - h.len)
    if v < p then .ok (v : F) else .error .ErrValueExceedsFieldSize

/-- Modelled from the spec: serialization side of the
`valuesSerializerFeCompressedBit` codec — one sign bit in the most
significant bit of the 256-bit big-endian interpretation. -/
def serializeFeCompressedBit (endianLittle : Bool) (x : F) (signBit : Bool) :
    List Byte :=
  let V := (if signBit then 2 ^ 255 else 0) + x.val
  let le := natToBytesLE 32 V
  if endianLittle then le else le.reverse

/-- Modelled from the spec: deserialization side of the
`valuesSerializerFeCompressedBit` codec. -/
def deserializeFeCompressedBit (endianLittle : Bool) (buf : List Byte) :
    Except Err (F × Bool) :=
  let V := bytesToNatLE (if endianLittle then buf else buf.reverse)
  let v := V % 2 ^ 255
  if v < p then .ok ((v : F), decide (2 ^ 255 ≤ V))
  else .error .ErrValueExceedsFieldSize

/-- Reading a fixed number of bytes from the input stream (`io.ReadFull`
over the modelled stream): an EOF before the first byte is `ErrEOF`, an
EOF strictly inside the read is `ErrUnexpectedEOF`; the error carries the
number of bytes actually available. -/
def readFullBytes (input : List Byte) (n : ℕ) :
    Except (ℕ × Err) (List Byte × List Byte) :=
  if n ≤ input.length then .ok (input.take n, input.drop n)
  else .error (input.length, if input.length = 0 then .ErrEOF else .ErrUnexpectedEOF)

/-- Modelled from the spec: `valuesSerializerHeaderFe.DeserializeValues` —
read 32 bytes, decode one header-carrying field element.  Returns bytes
read alongside the value or the error. -/
def deserializeValuesHeaderFe (endianLittle : Bool) (h : BitHeader)
    (input : List Byte) : Except (ℕ × Err) (ℕ × F) :=
  match readFullBytes input 32 with
  | .error e => .error e
  | .ok (buf, _) =>
    match deserializeFeHeader endianLittle h buf with
    | .error e => .error (32, e)
    | .ok x => .ok (32, x)

/-- Modelled from the spec:
`valuesSerializerHeaderFeHeaderFe.DeserializeValues` — two consecutive
32-byte header-carrying field elements. -/
def deserializeValuesHeaderFeHeaderFe (endianLittle : Bool) (h1 h2 : BitHeader)
    (input : List Byte) : Except (ℕ × Err) (ℕ × F × F) :=
  match readFullBytes input 32 with
  | .error e => .error e
  | .ok (buf1, rest) =>
    match deserializeFeHeader endianLittle h1 buf1 with
    | .error e => .error (32, e)
    | .ok v1 =>
      match readFullBytes rest 32 with
      | .error (got, e) => .error (32 + got, e)
      | .ok (buf2, _) =>
        match deserializeFeHeader endianLittle h2 buf2 with
        | .error e => .error (64, e)
        | .ok v2 => .ok (64, v1, v2)

/-- Modelled from the spec:
`valuesSerializerFeCompressedBit.DeserializeValues`. -/
def deserializeValuesFeCompressedBit (endianLittle : Bool)
    (input : List Byte) : Except (ℕ × Err) (ℕ × F × Bool) :=
  match readFullBytes input 32 with
  | .error e => .error e
  | .ok (buf, _) =>
    match deserializeFeCompressedBit endianLittle buf with
    | .error e => .error (32, e)
    | .ok (x, sb) => .ok (32, x, sb)

/-! ## The five basic point serializers (component E) -/

/-- Embedding of `checkPointSerializability`: NaPs are refused first,
then points at infinity, then (if requested) non-subgroup points. -/
def checkPointSerializability (point : PointView) (performSubgroupCheck : Bool) :
    Option Err :=
  if point.isNaP then some .ErrCannotSerializeNaP
  else if point.isAtInfinity then some .ErrCannotSerializePointAtInfinity
  else if performSubgroupCheck ∧ ¬ point.isInSubgroup then
    some .ErrWillNotSerializePointOutsideSubgroup
  else none

/-- Result of `SerializeCurvePoint`: bytes written plus either the output
bytes or an error with its `WriteErrorData` (`PartialWrite`). -/
inductive SRes where
  | ok (bytesWritten : ℕ) (out : List Byte)
  | error (bytesWritten : ℕ) (e : Err) (PartialWrite : Bool)
deriving DecidableEq

/-- Embedding of `addErrorDataNoWrite`: attach
`{PartialWrite := false, BytesWritten := 0}` to a refusal error. -/
def addErrorDataNoWrite (e : Err) : SRes := .error 0 e false

/-- Serializer configuration: endianness, the embedded bit header(s)
(where the format has them) and the subgroup restriction. -/
structure SerializerConfig where
  endianLittle : Bool
  h1 : BitHeader
  h2 : BitHeader
  subgroupOnly : Bool
deriving DecidableEq

/-- The five basic serializer schemes. -/
inductive SchemeId where
  | XY
  | XAndSignY
  | YAndSignX
  | XTimesSignY
  | YXTimesSignY
deriving DecidableEq

/-- Embedding of `pointSerializerXY.SerializeCurvePoint`. -/
def serializeXY (cfg : SerializerConfig) (point : CurvePointRead) : SRes :=
  match checkPointSerializability point.view cfg.subgroupOnly with
  | some e => addErrorDataNoWrite e
  | none =>
    .ok 64 (serializeFeHeader cfg.endianLittle cfg.h1 point.x ++
            serializeFeHeader cfg.endianLittle cfg.h2 point.y)

/-- Embedding of `pointSerializerXAndSignY.SerializeCurvePoint`. -/
def serializeXAndSignY (cfg : SerializerConfig) (point : CurvePointRead) : SRes :=
  match checkPointSerializability point.view cfg.subgroupOnly with
  | some e => addErrorDataNoWrite e
  | none =>
    .ok 32 (serializeFeCompressedBit cfg.endianLittle point.x
      (decide (Sign point.y < 0)))

/-- Embedding of `pointSerializerYAndSignX.SerializeCurvePoint` (for
`x = 0` the sign bit is not set). -/
def serializeYAndSignX (cfg : SerializerConfig) (point : CurvePointRead) : SRes :=
  match checkPointSerializability point.view cfg.subgroupOnly with
  | some e => addErrorDataNoWrite e
  | none =>
    .ok 32 (serializeFeCompressedBit cfg.endianLittle point.y
      (decide (Sign point.x < 0)))

/-- Embedding of `pointSerializerXTimesSignY.SerializeCurvePoint`
(subgroup-only; the subgroup check is unconditional). -/
def serializeXTimesSignY (cfg : SerializerConfig) (point : CurvePointRead) : SRes :=
  match checkPointSerializability point.view true with
  | some e => addErrorDataNoWrite e
  | none =>
    let X := if Sign point.y < 0 then -point.x else point.x
    .ok 32 (serializeFeHeader cfg.endianLittle cfg.h1 X)

/-- Embedding of `pointSerializerYXTimesSignY.SerializeCurvePoint`
(subgroup-only; writes `y·sign(y)` then `x·sign(y)`). -/
def serializeYXTimesSignY (cfg : SerializerConfig) (point : CurvePointRead) : SRes :=
  match checkPointSerializability point.view true with
  | some e => addErrorDataNoWrite e
  | none =>
    let X := if Sign point.y < 0 then -point.x else point.x
    let Y := if Sign point.y < 0 then -point.y else point.y
    .ok 64 (serializeFeHeader cfg.endianLittle cfg.h1 Y ++
            serializeFeHeader cfg.endianLittle cfg.h2 X)

/-- `SerializeCurvePoint` of the scheme selected by `sid`. -/
def serializeScheme : SchemeId → SerializerConfig → CurvePointRead → SRes
  | .XY => serializeXY
  | .XAndSignY => serializeXAndSignY
  | .YAndSignX => serializeYAndSignX
  | .XTimesSignY => serializeXTimesSignY
  | .YXTimesSignY => serializeYXTimesSignY

/-- Result of `DeserializeCurvePoint`: bytes read plus the decoded point,
an error together with the (unchanged) caller point, or a panic. -/
inductive DRes where
  | ok (bytesRead : ℕ) (point : Point_axtw)
  | error (bytesRead : ℕ) (e : Err) (point : Point_axtw)
  | panic (e : Err)
deriving DecidableEq

/-- Shared error plumbing of the deserializers around a `CurvePointFrom*`
call: constructor errors are wrapped with the read-error data and, for
trusted input, escalated to a panic. -/
def consumeCRes (trusted : Bool) (n : ℕ) (old : Point_axtw) : CRes → DRes
  | .ok P => .ok n P
  | .error _ e => if trusted then .panic e else .error n e old
  | .panic e => .panic e

/-- Embedding of `pointSerializerXY.DeserializeCurvePoint`.
`outputSubgroup` is `CanOnlyRepresentSubgroup()` of the caller's output
point; `old` is its value before the call. -/
def deserializeXY (sqrt : F → Option F) (e1 : F → Bool) (cfg : SerializerConfig)
    (input : List Byte) (trustLevel : IsPointTrusted) (outputSubgroup : Bool)
    (old : Point_axtw) : DRes :=
  match deserializeValuesHeaderFeHeaderFe cfg.endianLittle cfg.h1 cfg.h2 input with
  | .error (n, e) => .error n e old
  | .ok (n, X, Y) =>
    if cfg.subgroupOnly || outputSubgroup then
      match CurvePointFromXYAffine_subgroup e1 X Y trustLevel with
      | (_, some e) => if trustLevel.v then .panic e else .error n e old
      | (P, none) => .ok n P
    else
      match CurvePointFromXYAffine_full X Y trustLevel with
      | (_, some e) => if trustLevel.v then .panic e else .error n e old
      | (P, none) => .ok n P

/-- Embedding of `pointSerializerXAndSignY.DeserializeCurvePoint`. -/
def deserializeXAndSignY (sqrt : F → Option F) (e1 : F → Bool)
    (cfg : SerializerConfig) (input : List Byte) (trustLevel : IsPointTrusted)
    (outputSubgroup : Bool) (old : Point_axtw) : DRes :=
  match deserializeValuesFeCompressedBit cfg.endianLittle input with
  | .error (n, e) => .error n e old
  | .ok (n, X, signBit) =>
    let signInt : ℤ := if signBit then -1 else 1
    if cfg.subgroupOnly || outputSubgroup then
      consumeCRes trustLevel.v n old
        (CurvePointFromXAndSignY_subgroup sqrt e1 X signInt trustLevel)
    else
      consumeCRes trustLevel.v n old
        (CurvePointFromXAndSignY_full sqrt X signInt trustLevel)

/-- Embedding of `pointSerializerYAndSignX.DeserializeCurvePoint`.  After
a successful point construction the non-canonical encoding of the
`x = 0` points (sign bit set) is rejected with
`ErrUnexpectedNegativeZero`; the source performs this check through
`IsNeutralElement` for the subgroup branch and `X_decaf_affine().IsZero()`
for the full branch — both amount to `x = 0` for a non-NaP point. -/
def deserializeYAndSignX (sqrt : F → Option F) (e1 : F → Bool)
    (cfg : SerializerConfig) (input : List Byte) (trustLevel : IsPointTrusted)
    (outputSubgroup : Bool) (old : Point_axtw) : DRes :=
  match deserializeValuesFeCompressedBit cfg.endianLittle input with
  | .error (n, e) => .error n e old
  | .ok (n, Y, signBit) =>
    let signInt : ℤ := if signBit then -1 else 1
    let res :=
      if cfg.subgroupOnly || outputSubgroup then
        CurvePointFromYAndSignX_subgroup sqrt e1 Y signInt trustLevel
      else
        CurvePointFromYAndSignX_full sqrt Y signInt trustLevel
    match res with
    | .panic e => .panic e
    | .error _ e => if trustLevel.v then .panic e else .error n e old
    | .ok P =>
      if P.x = 0 ∧ signBit then
        if trustLevel.v then .panic .ErrUnexpectedNegativeZero
        else .error n .ErrUnexpectedNegativeZero old
      else .ok n P

/-- Embedding of `pointSerializerXTimesSignY.DeserializeCurvePoint`
(subgroup-only output). -/
def deserializeXTimesSignY (sqrt : F → Option F) (cfg : SerializerConfig)
    (input : List Byte) (trustLevel : IsPointTrusted) (old : Point_axtw) : DRes :=
  match deserializeValuesHeaderFe cfg.endianLittle cfg.h1 input with
  | .error (n, e) => .error n e old
  | .ok (n, XSignY) =>
    consumeCRes trustLevel.v n old
      (CurvePointFromXTimesSignY_subgroup sqrt XSignY trustLevel)

/-- Embedding of `pointSerializerYXTimesSignY.DeserializeCurvePoint`
(subgroup-only output; reads `y·sign(y)` then `x·sign(y)`). -/
def deserializeYXTimesSignY (cfg : SerializerConfig) (input : List Byte)
    (trustLevel : IsPointTrusted) (old : Point_axtw) : DRes :=
  match deserializeValuesHeaderFeHeaderFe cfg.endianLittle cfg.h1 cfg.h2 input with
  | .error (n, e) => .error n e old
  | .ok (n, YSignY, XSignY) =>
    consumeCRes trustLevel.v n old
      (CurvePointFromXYTimesSignY_subgroup XSignY YSignY trustLevel)

/-- `DeserializeCurvePoint` of the scheme selected by `sid`. -/
def deserializeScheme (sid : SchemeId) (sqrt : F → Option F) (e1 : F → Bool)
    (cfg : SerializerConfig) (input : List Byte) (trustLevel : IsPointTrusted)
    (outputSubgroup : Bool) (old : Point_axtw) : DRes :=
  match sid with
  | .XY => deserializeXY sqrt e1 cfg input trustLevel outputSubgroup old
  | .XAndSignY => deserializeXAndSignY sqrt e1 cfg input trustLevel outputSubgroup old
  | .YAndSignX => deserializeYAndSignX sqrt e1 cfg input trustLevel outputSubgroup old
  | .XTimesSignY => deserializeXTimesSignY sqrt cfg input trustLevel old
  | .YXTimesSignY => deserializeYXTimesSignY cfg input trustLevel old

/-! ## Stream framing: `consumeExpectRead` (component D) -/

/-- The structured data attached to `consumeExpectRead` errors
(`headerRead` in the source, extending `ReadErrorData`). -/
structure headerRead where
  PartialRead : Bool
  ActuallyRead : List Byte
  ExpectedToRead : List Byte
  BytesRead : ℕ
deriving DecidableEq

inductive ConsumeRes where
  | panic
  | ok (bytesRead : ℕ)
  | error (bytesRead : ℕ) (e : Err) (data : headerRead)
deriving DecidableEq

/-- Embedding of `consumeExpectRead`: read `expectToRead.length` bytes
and compare.  Expected strings longer than `MaxInt32` are not processed
(panic); a zero-length expectation consumes nothing and succeeds; the
full length is always read before the comparison, so a mismatch is only
reported after the whole string was consumed. -/
def consumeExpectRead (input expectToRead : List Byte) : ConsumeRes :=
  if expectToRead.length > 2 ^ 31 - 1 then .panic
  else if expectToRead.length = 0 then .ok 0
  else
    let l := expectToRead.length
    let bytesRead := min l input.length
    let buf := input.take l
    if bytesRead < l then
      if bytesRead = 0 then
        .error 0 .ErrEOF ⟨false, [], expectToRead, 0⟩
      else
        .error bytesRead .ErrUnexpectedEOF ⟨true, buf, expectToRead, bytesRead⟩
    else
      if ¬ (buf = expectToRead) then
        .error l .ErrDidNotReadExpectedString ⟨false, buf, expectToRead, l⟩
      else .ok l

/-! ## Shared field, sign and curve facts -/

theorem isSquare_of_mul_sq {a x : F} (h : a * x ^ 2 = 1) : IsSquare a :=
  ⟨a * x, by linear_combination (-a) * h⟩

theorem recNum_ne_zero (x : F) : 5 * (x * x) + 1 ≠ 0 := by
  intro h
  apply not_isSquare_A
  apply isSquare_of_mul_sq (x := x)
  rw [CurveParameterA_fe]
  linear_combination -h

theorem recDenom_ne_zero (x : F) : 1 - CurveParameterD_fe * (x * x) ≠ 0 := by
  intro h
  apply not_isSquare_D
  apply isSquare_of_mul_sq (x := x)
  linear_combination -h

theorem num_as_A (x : F) : 5 * (x * x) + 1 = 1 - CurveParameterA_fe * x ^ 2 := by
  rw [CurveParameterA_fe]; ring

theorem onCurve_y_sq {x y : F} (h : onCurveXY x y) :
    y ^ 2 * (1 - CurveParameterD_fe * (x * x)) = 5 * (x * x) + 1 := by
  rw [onCurveXY] at h
  rw [num_as_A]
  linear_combination h

theorem onCurve_y_ne_zero {x y : F} (h : onCurveXY x y) : y ≠ 0 := by
  intro h0
  apply not_isSquare_A
  apply isSquare_of_mul_sq (x := x)
  rw [onCurveXY, h0] at h
  linear_combination h

theorem onCurve_ratio {x y : F} (h : onCurveXY x y) :
    (5 * (x * x) + 1) * finv (1 - CurveParameterD_fe * (x * x)) = y ^ 2 := by
  rw [finv_eq_inv]
  rw [mul_inv_eq_iff_eq_mul₀ (recDenom_ne_zero x)]
  exact (onCurve_y_sq h).symm

theorem sq_eq_sq_cases {a b : F} (h : a ^ 2 = b ^ 2) : a = b ∨ a = -b := by
  have : (a - b) * (a + b) = 0 := by linear_combination h
  rcases mul_eq_zero.mp this with h1 | h1
  · exact Or.inl (sub_eq_zero.mp h1)
  · exact Or.inr (eq_neg_of_add_eq_zero_left h1)

theorem onCurve_x_zero {x y : F} (h : onCurveXY x y) (hx : x = 0) :
    y = 1 ∨ y = -1 := by
  subst hx
  rw [onCurveXY] at h
  have h2 : y ^ 2 = 1 ^ 2 := by linear_combination h
  simpa using sq_eq_sq_cases h2

theorem onCurve_neg {x y : F} (h : onCurveXY x y) : onCurveXY (-x) (-y) := by
  rw [onCurveXY] at h ⊢
  linear_combination h

/-- `y = 0` forces the curve equation to make `a` a square, so the
denominator `d·y² - a` of `recoverXFromYAffine` is non-zero exactly away
from the points at infinity; on an affine curve point it never vanishes. -/
theorem onCurve_recX_denom_ne_zero {x y : F} (h : onCurveXY x y) :
    CurveParameterD_fe * (y * y) - CurveParameterA_fe ≠ 0 := by
  intro h0
  -- then d·y² = a, and the curve equation gives y² = 1, hence d = a.
  have hy2 : y ^ 2 = 1 := by
    rw [onCurveXY] at h
    linear_combination h + x ^ 2 * h0
  have hda : CurveParameterD_fe = CurveParameterA_fe := by
    linear_combination h0 - CurveParameterD_fe * hy2
  have : ¬ (CurveParameterD_fe = CurveParameterA_fe) := by decide
  exact this hda

theorem Sign_zero_eq : Sign 0 = 0 := by simp [Sign]

theorem Sign_eq_zero_iff {x : F} : Sign x = 0 ↔ x = 0 := by
  unfold Sign
  by_cases hx : x = 0
  · simp [hx]
  · simp only [hx, if_false]
    split <;> simp [hx]

theorem Sign_cases {x : F} (hx : x ≠ 0) : Sign x = 1 ∨ Sign x = -1 := by
  unfold Sign
  simp only [hx, if_false]
  split <;> simp

theorem Sign_neg {x : F} (hx : x ≠ 0) : Sign (-x) = - Sign x := by
  have hvx : x.val ≠ 0 := fun h => hx ((ZMod.val_eq_zero x).mp h)
  have hnx : (-x : F) ≠ 0 := neg_ne_zero.mpr hx
  have hvnx : (-x).val = p - x.val := by
    rw [ZMod.neg_val]
    simp [hx]
  have hlt : x.val < p := ZMod.val_lt x
  have hodd : p % 2 = 1 := by decide
  unfold Sign
  simp only [hnx, if_false, hx, hvnx]
  by_cases hle : x.val ≤ (p - 1) / 2
  · have : ¬ (p - x.val ≤ (p - 1) / 2) := by omega
    simp [hle, this]
  · have : p - x.val ≤ (p - 1) / 2 := by omega
    simp [hle, this]

theorem Sign_ne_neg {x : F} (hx : x ≠ 0) : Sign x ≠ Sign (-x) := by
  rw [Sign_neg hx]
  rcases Sign_cases hx with h | h <;> rw [h] <;> decide

theorem Jacobi_neg_iff {x : F} (hx : x ≠ 0) : Jacobi x < 0 ↔ ¬ IsSquare x := by
  unfold Jacobi
  simp only [hx, if_false]
  split <;> simp_all

theorem Jacobi_nonneg_iff {x : F} (hx : x ≠ 0) : 0 ≤ Jacobi x ↔ IsSquare x := by
  unfold Jacobi
  simp only [hx, if_false]
  split <;> simp_all

theorem Jacobi_one_eq : Jacobi 1 = 1 := by
  unfold Jacobi
  simp [isSquare_one]

/-! ## Claim C7: `consumeExpectRead` stream framing -/

/-- C7.  For every non-empty expected byte string of processable length:
an exhausted reader yields the `ErrEOF` error with `PartialRead = false`
and `BytesRead = 0`; a reader holding `k` bytes with `1 ≤ k < len`
yields `ErrUnexpectedEOF` with `PartialRead = true` and `BytesRead = k`;
when all bytes are read but differ from the expected string the error is
`ErrDidNotReadExpectedString`, carrying both `ExpectedToRead` and the
`ActuallyRead` bytes with `BytesRead` equal to the full expected length
(the full length is consumed even when the mismatch appears early); and
expected strings longer than `2^31 - 1` bytes are not processed. -/
theorem consumeExpectRead_framing (input expectToRead : List Byte)
    (hne : expectToRead ≠ []) (hlen : expectToRead.length ≤ 2 ^ 31 - 1) :
    (input = [] →
      consumeExpectRead input expectToRead =
        .error 0 .ErrEOF ⟨false, [], expectToRead, 0⟩) ∧
    (0 < input.length → input.length < expectToRead.length →
      consumeExpectRead input expectToRead =
        .error input.length .ErrUnexpectedEOF
          ⟨true, input.take expectToRead.length, expectToRead, input.length⟩) ∧
    (expectToRead.length ≤ input.length →
      input.take expectToRead.length ≠ expectToRead →
      consumeExpectRead input expectToRead =
        .error expectToRead.length .ErrDidNotReadExpectedString
          ⟨false, input.take expectToRead.length, expectToRead,
            expectToRead.length⟩) ∧
    (∀ big : List Byte, big.length > 2 ^ 31 - 1 →
      consumeExpectRead input big = .panic) := by
  have hl0 : expectToRead.length ≠ 0 := fun h => hne (List.eq_nil_of_length_eq_zero h)
  refine ⟨?_, ?_, ?_, ?_⟩
  · intro h
    subst h
    rw [consumeExpectRead]
    rw [if_neg (by omega), if_neg hl0]
    simp only [List.length_nil, Nat.min_zero, List.take_nil]
    rw [if_pos (by omega)]
    simp
  · intro h1 h2
    rw [consumeExpectRead]
    rw [if_neg (by omega), if_neg hl0]
    simp only
    have hmin : min expectToRead.length input.length = input.length := by omega
    rw [hmin, if_pos (by omega), if_neg (by omega)]
  · intro h1 h2
    rw [consumeExpectRead]
    rw [if_neg (by omega), if_neg hl0]
    simp only
    rw [if_neg (by omega), if_pos h2]
  · intro big hbig
    rw [consumeExpectRead]
    rw [if_pos hbig]

/-- Witness for C7: a reader yielding 15 bytes against a 32-byte expected
string produces `ErrUnexpectedEOF` with `PartialRead = true` and
`BytesRead = 15`. -/
theorem consumeExpectRead_framing_witness :
    consumeExpectRead (List.replicate 15 (0 : Byte)) (List.replicate 32 (1 : Byte)) =
      .error 15 .ErrUnexpectedEOF
        ⟨true, (List.replicate 15 (0 : Byte)).take 32, List.replicate 32 (1 : Byte), 15⟩ := by
  have h := (consumeExpectRead_framing (List.replicate 15 (0 : Byte))
    (List.replicate 32 (1 : Byte)) (by decide) (by decide)).2.1 (by decide) (by decide)
  simpa using h

/-! ## Claim C5: serialization refusal order -/

/-- Whether the subgroup check is performed before writing: unconditional
for the subgroup-only schemes, per the configured flag otherwise. -/
def performsSubgroupCheck (sid : SchemeId) (cfg : SerializerConfig) : Bool :=
  match sid with
  | .XTimesSignY => true
  | .YXTimesSignY => true
  | _ => cfg.subgroupOnly

theorem checkPS_nap {v : PointView} (c : Bool) (h : v.isNaP = true) :
    checkPointSerializability v c = some .ErrCannotSerializeNaP := by
  simp [checkPointSerializability, h]

theorem checkPS_inf {v : PointView} (c : Bool) (h1 : v.isNaP = false)
    (h2 : v.isAtInfinity = true) :
    checkPointSerializability v c = some .ErrCannotSerializePointAtInfinity := by
  simp [checkPointSerializability, h1, h2]

theorem checkPS_sub {v : PointView} (h1 : v.isNaP = false)
    (h2 : v.isAtInfinity = false) (h3 : v.isInSubgroup = false) :
    checkPointSerializability v true = some .ErrWillNotSerializePointOutsideSubgroup := by
  simp [checkPointSerializability, h1, h2, h3]

/-- C5.  Every basic serializer refuses to write on invalid input,
returning `bytesWritten = 0` with `PartialWrite = false`: a NaP is
rejected first (`ErrCannotSerializeNaP`), then a point at infinity
(`ErrCannotSerializePointAtInfinity`), then — when the subgroup check
applies (unconditionally for the subgroup-only schemes, per the
configured flag otherwise) — a point outside the prime-order subgroup
(`ErrWillNotSerializePointOutsideSubgroup`). -/
theorem serialize_refusal (sid : SchemeId) (cfg : SerializerConfig)
    (point : CurvePointRead) :
    (point.view.isNaP = true →
      serializeScheme sid cfg point = .error 0 .ErrCannotSerializeNaP false) ∧
    (point.view.isNaP = false → point.view.isAtInfinity = true →
      serializeScheme sid cfg point = .error 0 .ErrCannotSerializePointAtInfinity false) ∧
    (point.view.isNaP = false → point.view.isAtInfinity = false →
      performsSubgroupCheck sid cfg = true → point.view.isInSubgroup = false →
      serializeScheme sid cfg point = .error 0 .ErrWillNotSerializePointOutsideSubgroup false) := by
  refine ⟨fun h => ?_, fun h1 h2 => ?_, fun h1 h2 h3 h4 => ?_⟩
  · cases sid <;>
      simp [serializeScheme, serializeXY, serializeXAndSignY, serializeYAndSignX,
        serializeXTimesSignY, serializeYXTimesSignY, checkPS_nap _ h, addErrorDataNoWrite]
  · cases sid <;>
      simp [serializeScheme, serializeXY, serializeXAndSignY, serializeYAndSignX,
        serializeXTimesSignY, serializeYXTimesSignY, checkPS_inf _ h1 h2, addErrorDataNoWrite]
  · cases sid <;> simp only [performsSubgroupCheck] at h3 <;>
      simp [serializeScheme, serializeXY, serializeXAndSignY, serializeYAndSignX,
        serializeXTimesSignY, serializeYXTimesSignY, h3, checkPS_sub h1 h2 h4,
        addErrorDataNoWrite]

/-- Witness for C5: serializing a NaP with the XY scheme refuses with
`ErrCannotSerializeNaP`, zero bytes written, no partial write. -/
theorem serialize_refusal_witness :
    serializeScheme .XY ⟨true, ⟨0, 0⟩, ⟨0, 0⟩, false⟩ ⟨⟨true, false, false⟩, 0, 0⟩ =
      .error 0 .ErrCannotSerializeNaP false :=
  (serialize_refusal .XY ⟨true, ⟨0, 0⟩, ⟨0, 0⟩, false⟩ ⟨⟨true, false, false⟩, 0, 0⟩).1 rfl

/-! ## Claim C4: `CurvePointFromXYTimesSignY_subgroup`, untrusted -/

/-- C4.  On untrusted input, `CurvePointFromXYTimesSignY_subgroup`
rejects a second argument whose sign is not strictly positive (this also
rejects `y·sign(y) = 0`) with `ErrWrongSignY`; otherwise it forms the
candidate `(x, y, t = x·y)` and checks the subgroup predicate
`Jacobi(1 - a·x²)` together with the curve equation
`1 - a·x² - y² + d·t² = 0`, reporting `ErrNotOnCurve` whenever the curve
equation fails (even if the subgroup check also fails) and
`ErrNotInSubgroup` only when the candidate is on the curve; when both
checks pass, the candidate is returned with no error. -/
theorem curvePointFromXYTimesSignY_untrusted (xSignY ySignY : F) :
    (Sign ySignY ≤ 0 →
      CurvePointFromXYTimesSignY_subgroup xSignY ySignY UntrustedInput =
        .error Point_axtw.zero .ErrWrongSignY) ∧
    (0 < Sign ySignY →
      (¬ (1 - CurveParameterA_fe * xSignY ^ 2 - ySignY ^ 2 +
            CurveParameterD_fe * (xSignY * ySignY) ^ 2 = 0) →
        CurvePointFromXYTimesSignY_subgroup xSignY ySignY UntrustedInput =
          .error Point_axtw.zero .ErrNotOnCurve) ∧
      (1 - CurveParameterA_fe * xSignY ^ 2 - ySignY ^ 2 +
          CurveParameterD_fe * (xSignY * ySignY) ^ 2 = 0 →
        Jacobi (1 - CurveParameterA_fe * xSignY ^ 2) < 0 →
        CurvePointFromXYTimesSignY_subgroup xSignY ySignY UntrustedInput =
          .error Point_axtw.zero .ErrNotInSubgroup) ∧
      (1 - CurveParameterA_fe * xSignY ^ 2 - ySignY ^ 2 +
          CurveParameterD_fe * (xSignY * ySignY) ^ 2 = 0 →
        0 ≤ Jacobi (1 - CurveParameterA_fe * xSignY ^ 2) →
        CurvePointFromXYTimesSignY_subgroup xSignY ySignY UntrustedInput =
          .ok ⟨xSignY, ySignY, xSignY * ySignY⟩)) := by
  have hacc : 5 * (xSignY * xSignY) + 1 = 1 - CurveParameterA_fe * xSignY ^ 2 :=
    num_as_A xSignY
  have hcurve : ∀ c : F,
      (5 * (xSignY * xSignY) + 1) - ySignY * ySignY + c = 0 ↔
      1 - CurveParameterA_fe * xSignY ^ 2 - ySignY ^ 2 + c = 0 := by
    intro c
    constructor <;> intro h <;> · rw [num_as_A] at * ; linear_combination h
  constructor
  · intro h
    rw [CurvePointFromXYTimesSignY_subgroup, if_pos]
    exact ⟨by simp [UntrustedInput], h⟩
  · intro hpos
    have hsign : ¬ (¬ (UntrustedInput.v = true) ∧ Sign ySignY ≤ 0) := by
      intro h
      omega
    have htD : CurveParameterD_fe * (xSignY * ySignY * (xSignY * ySignY)) =
        CurveParameterD_fe * (xSignY * ySignY) ^ 2 := by ring
    refine ⟨fun hnc => ?_, fun hc hj => ?_, fun hc hj => ?_⟩
    · rw [CurvePointFromXYTimesSignY_subgroup, if_neg hsign]
      simp only [UntrustedInput, Bool.false_eq_true, if_false]
      rw [if_pos]
      intro h
      apply hnc
      rw [htD] at h
      exact (hcurve _).mp h
    · rw [CurvePointFromXYTimesSignY_subgroup, if_neg hsign]
      simp only [UntrustedInput, Bool.false_eq_true, if_false]
      rw [if_neg (by rw [htD]; exact not_not_intro ((hcurve _).mpr hc)), if_pos]
      rw [hacc]
      exact hj
    · rw [CurvePointFromXYTimesSignY_subgroup, if_neg hsign]
      simp only [UntrustedInput, Bool.false_eq_true, if_false]
      rw [if_neg (by rw [htD]; exact not_not_intro ((hcurve _).mpr hc)),
        if_neg (by rw [hacc]; omega)]

/-- Witness for C4: `y·sign(y) = 0` has sign `0 ≤ 0` and is rejected
with `ErrWrongSignY`. -/
theorem curvePointFromXYTimesSignY_untrusted_witness :
    CurvePointFromXYTimesSignY_subgroup 0 0 UntrustedInput =
      .error Point_axtw.zero .ErrWrongSignY :=
  (curvePointFromXYTimesSignY_untrusted 0 0).1 (by rw [Sign_zero_eq])

/-! ## Claim C10: constructors expose no partial coordinates on error -/

theorem setFromSubgroupPoint_fail {e1 : F → Bool} {rec inp : Point_axtw} {t : Bool}
    {pt : Point_axtw} (h : SetFromSubgroupPoint e1 rec inp t = (pt, false)) :
    pt = rec := by
  unfold SetFromSubgroupPoint at h
  split_ifs at h <;> simp_all

theorem xyAffine_full_err_zero {x y : F} {tl : IsPointTrusted} {P : Point_axtw}
    {e : Err} (h : CurvePointFromXYAffine_full x y tl = (P, some e)) :
    P = Point_axtw.zero := by
  simp only [CurvePointFromXYAffine_full, Point_axtw.IsNaP] at h
  split_ifs at h <;> simp_all

theorem xyAffine_subgroup_err_zero {e1 : F → Bool} {x y : F} {tl : IsPointTrusted}
    {P : Point_axtw} {e : Err}
    (h : CurvePointFromXYAffine_subgroup e1 x y tl = (P, some e)) :
    P = Point_axtw.zero := by
  unfold CurvePointFromXYAffine_subgroup at h
  rcases hfull : CurvePointFromXYAffine_full x y tl with ⟨P', e'⟩
  rw [hfull] at h
  cases e' with
  | some e'' => simp_all
  | none =>
    simp only at h
    rcases hset : SetFromSubgroupPoint e1 Point_axtw.zero P' tl.v with ⟨pt, ok⟩
    rw [hset] at h
    cases ok with
    | true => simp_all
    | false =>
      simp only [if_false] at h
      rw [setFromSubgroupPoint_fail hset] at h
      simp_all

theorem xAndSignY_full_err_zero {sqrt : F → Option F} {x : F} {s : ℤ}
    {tl : IsPointTrusted} {P : Point_axtw} {e : Err}
    (h : CurvePointFromXAndSignY_full sqrt x s tl = .error P e) :
    P = Point_axtw.zero := by
  unfold CurvePointFromXAndSignY_full at h
  rcases hrec : recoverYFromXAffine sqrt x false with ⟨y0, e'⟩
  rw [hrec] at h
  split_ifs at h <;> cases e' <;> simp_all <;> split_ifs at h <;> simp_all

theorem xAndSignY_subgroup_err_zero {sqrt : F → Option F} {e1 : F → Bool} {x : F}
    {s : ℤ} {tl : IsPointTrusted} {P : Point_axtw} {e : Err}
    (h : CurvePointFromXAndSignY_subgroup sqrt e1 x s tl = .error P e) :
    P = Point_axtw.zero := by
  unfold CurvePointFromXAndSignY_subgroup at h
  by_cases h1 : ¬ (s = 1 ∨ s = -1)
  · rw [if_pos h1] at h
    split_ifs at h <;> simp_all
  · rw [if_neg h1] at h
    by_cases h2 : tl.v = true
    · rw [if_pos h2] at h
      cases hfull : CurvePointFromXAndSignY_full sqrt x s TrustedInput with
      | ok P' =>
        rw [hfull] at h
        simp only at h
        rcases hset : SetFromSubgroupPoint e1 Point_axtw.zero P' true with ⟨pt, ok⟩
        rw [hset] at h
        cases ok <;> simp_all
      | error P' e' =>
        rw [hfull] at h
        exact absurd h (by simp)
      | panic e' =>
        rw [hfull] at h
        exact absurd h (by simp)
    · rw [if_neg h2] at h
      rcases hrec : recoverYFromXAffine sqrt x true with ⟨y0, e'⟩
      rw [hrec] at h
      cases e'
      · simp only at h
        split_ifs at h <;> simp_all
      · simp_all

theorem yAndSignX_full_err_zero {sqrt : F → Option F} {y : F} {s : ℤ}
    {tl : IsPointTrusted} {P : Point_axtw} {e : Err}
    (h : CurvePointFromYAndSignX_full sqrt y s tl = .error P e) :
    P = Point_axtw.zero := by
  unfold CurvePointFromYAndSignX_full at h
  rcases hrec : recoverXFromYAffine sqrt y with ⟨x0, e'⟩
  rw [hrec] at h
  split_ifs at h <;> cases e' <;> simp_all <;> split_ifs at h <;> simp_all

theorem yAndSignX_subgroup_err_zero {sqrt : F → Option F} {e1 : F → Bool} {y : F}
    {s : ℤ} {tl : IsPointTrusted} {P : Point_axtw} {e : Err}
    (h : CurvePointFromYAndSignX_subgroup sqrt e1 y s tl = .error P e) :
    P = Point_axtw.zero := by
  unfold CurvePointFromYAndSignX_subgroup at h
  cases hfull : CurvePointFromYAndSignX_full sqrt y s tl with
  | ok P' =>
    rw [hfull] at h
    simp only at h
    rcases hset : SetFromSubgroupPoint e1 Point_axtw.zero P' tl.v with ⟨pt, ok⟩
    rw [hset] at h
    cases ok <;> simp_all
  | error P' e' =>
    rw [hfull] at h
    simp_all
  | panic e' =>
    rw [hfull] at h
    exact absurd h (by simp)

theorem xTimesSignY_subgroup_err_zero {sqrt : F → Option F} {xs : F}
    {tl : IsPointTrusted} {P : Point_axtw} {e : Err}
    (h : CurvePointFromXTimesSignY_subgroup sqrt xs tl = .error P e) :
    P = Point_axtw.zero := by
  unfold CurvePointFromXTimesSignY_subgroup at h
  rcases hrec : recoverYFromXAffine sqrt xs (! tl.v) with ⟨y0, e'⟩
  rw [hrec] at h
  cases e' <;> simp_all

theorem xyTimesSignY_subgroup_err_zero {xs ys : F} {tl : IsPointTrusted}
    {P : Point_axtw} {e : Err}
    (h : CurvePointFromXYTimesSignY_subgroup xs ys tl = .error P e) :
    P = Point_axtw.zero := by
  unfold CurvePointFromXYTimesSignY_subgroup at h
  split_ifs at h <;> simp_all <;> split_ifs at h <;> simp_all

/-- C10.  Whenever one of the point-from-field-element constructors
returns a non-nil error without panicking, the returned point is the
zero value of the point type (a NaP with `x = y = 0`): partially
recovered coordinates are never exposed to a caller that ignores the
error. -/
theorem constructors_error_yield_zero (sqrt : F → Option F) (e1 : F → Bool) :
    (∀ x y tl P e, CurvePointFromXYAffine_full x y tl = (P, some e) →
      P = Point_axtw.zero) ∧
    (∀ x y tl P e, CurvePointFromXYAffine_subgroup e1 x y tl = (P, some e) →
      P = Point_axtw.zero) ∧
    (∀ x s tl P e, CurvePointFromXAndSignY_full sqrt x s tl = .error P e →
      P = Point_axtw.zero) ∧
    (∀ x s tl P e, CurvePointFromXAndSignY_subgroup sqrt e1 x s tl = .error P e →
      P = Point_axtw.zero) ∧
    (∀ y s tl P e, CurvePointFromYAndSignX_full sqrt y s tl = .error P e →
      P = Point_axtw.zero) ∧
    (∀ y s tl P e, CurvePointFromYAndSignX_subgroup sqrt e1 y s tl = .error P e →
      P = Point_axtw.zero) ∧
    (∀ xs tl P e, CurvePointFromXTimesSignY_subgroup sqrt xs tl = .error P e →
      P = Point_axtw.zero) ∧
    (∀ xs ys tl P e, CurvePointFromXYTimesSignY_subgroup xs ys tl = .error P e →
      P = Point_axtw.zero) :=
  ⟨fun _ _ _ _ _ h => xyAffine_full_err_zero h,
   fun _ _ _ _ _ h => xyAffine_subgroup_err_zero h,
   fun _ _ _ _ _ h => xAndSignY_full_err_zero h,
   fun _ _ _ _ _ h => xAndSignY_subgroup_err_zero h,
   fun _ _ _ _ _ h => yAndSignX_full_err_zero h,
   fun _ _ _ _ _ h => yAndSignX_subgroup_err_zero h,
   fun _ _ _ _ h => xTimesSignY_subgroup_err_zero h,
   fun _ _ _ _ _ h => xyTimesSignY_subgroup_err_zero h⟩

/-- Witness for C10: `CurvePointFromXYAffine_full 0 0` (untrusted) errors
with `ErrCannotDeserializeXYAllZero`, and the returned point is the zero
value. -/
theorem constructors_error_yield_zero_witness :
    CurvePointFromXYAffine_full 0 0 UntrustedInput =
      (Point_axtw.zero, some Err.ErrCannotDeserializeXYAllZero) ∧
    Point_axtw.zero = Point_axtw.zero :=
  ⟨by decide,
   (constructors_error_yield_zero listSqrt (fun _ => true)).1 0 0 UntrustedInput
     Point_axtw.zero Err.ErrCannotDeserializeXYAllZero (by decide)⟩

/-! ## Claim C8: deserialization errors leave the output point untouched -/

theorem consumeCRes_error {t : Bool} {n : ℕ} {old : Point_axtw} {res : CRes}
    {n' : ℕ} {e : Err} {pt : Point_axtw}
    (h : consumeCRes t n old res = .error n' e pt) : pt = old := by
  unfold consumeCRes at h
  cases res with
  | ok P => simp_all
  | error P e0 => split_ifs at h <;> simp_all
  | panic e0 => simp_all

/-- C8.  For every basic deserializer and every input: whenever
`DeserializeCurvePoint` returns a non-nil error — from stream framing,
field-element decoding, curve or subgroup validation, or sign
canonicalization — the caller's output point is not written to: the
point carried by the error result equals its value before the call. -/
theorem deserialize_error_frame (sid : SchemeId) (sqrt : F → Option F)
    (e1 : F → Bool) (cfg : SerializerConfig) (input : List Byte)
    (tl : IsPointTrusted) (outSub : Bool) (old : Point_axtw) :
    ∀ n e pt, deserializeScheme sid sqrt e1 cfg input tl outSub old = .error n e pt →
      pt = old := by
  intro n e pt h
  cases sid
  case XY =>
    unfold deserializeScheme deserializeXY at h
    rcases hv : deserializeValuesHeaderFeHeaderFe cfg.endianLittle cfg.h1 cfg.h2 input
      with ⟨n', e'⟩ | ⟨n', X, Y⟩ <;> rw [hv] at h <;> simp only at h
    · simp_all
    · by_cases hb : (cfg.subgroupOnly || outSub) = true
      · rw [if_pos hb] at h
        rcases hc : CurvePointFromXYAffine_subgroup e1 X Y tl with ⟨P', e''⟩
        rw [hc] at h
        cases e''
        · simp_all
        · simp only at h
          split_ifs at h <;> simp_all
      · rw [if_neg hb] at h
        rcases hc : CurvePointFromXYAffine_full X Y tl with ⟨P', e''⟩
        rw [hc] at h
        cases e''
        · simp_all
        · simp only at h
          split_ifs at h <;> simp_all
  case XAndSignY =>
    unfold deserializeScheme deserializeXAndSignY at h
    rcases hv : deserializeValuesFeCompressedBit cfg.endianLittle input
      with ⟨n', e'⟩ | ⟨n', X, sb⟩ <;> rw [hv] at h <;> simp only at h
    · simp_all
    · split_ifs at h <;> exact consumeCRes_error h
  case YAndSignX =>
    unfold deserializeScheme deserializeYAndSignX at h
    rcases hv : deserializeValuesFeCompressedBit cfg.endianLittle input
      with ⟨n', e'⟩ | ⟨n', Y, sb⟩ <;> rw [hv] at h <;> simp only at h
    · simp_all
    · generalize hres : (if cfg.subgroupOnly || outSub then
          CurvePointFromYAndSignX_subgroup sqrt e1 Y (if sb then -1 else 1) tl
        else CurvePointFromYAndSignX_full sqrt Y (if sb then -1 else 1) tl) = res at h
      cases res with
      | ok P' =>
        simp only at h
        split_ifs at h <;> simp_all
      | error P' e'' =>
        simp only at h
        split_ifs at h <;> simp_all
      | panic e'' => simp_all
  case XTimesSignY =>
    unfold deserializeScheme deserializeXTimesSignY at h
    rcases hv : deserializeValuesHeaderFe cfg.endianLittle cfg.h1 input
      with ⟨n', e'⟩ | ⟨n', XS⟩ <;> rw [hv] at h <;> simp only at h
    · simp_all
    · exact consumeCRes_error h
  case YXTimesSignY =>
    unfold deserializeScheme deserializeYXTimesSignY at h
    rcases hv : deserializeValuesHeaderFeHeaderFe cfg.endianLittle cfg.h1 cfg.h2 input
      with ⟨n', e'⟩ | ⟨n', YS, XS⟩ <;> rw [hv] at h <;> simp only at h
    · simp_all
    · exact consumeCRes_error h

/-- Witness for C8: deserializing the XY scheme from an exhausted stream
fails with `ErrEOF` and returns the caller's point `(1, 2, 3)`
unchanged. -/
theorem deserialize_error_frame_witness :
    deserializeScheme .XY listSqrt (fun _ => true) ⟨true, ⟨0, 0⟩, ⟨0, 0⟩, false⟩ []
        UntrustedInput false ⟨1, 2, 3⟩ = .error 0 .ErrEOF ⟨1, 2, 3⟩ ∧
    (⟨1, 2, 3⟩ : Point_axtw) = ⟨1, 2, 3⟩ :=
  ⟨by decide,
   deserialize_error_frame .XY listSqrt (fun _ => true) ⟨true, ⟨0, 0⟩, ⟨0, 0⟩, false⟩ []
     UntrustedInput false ⟨1, 2, 3⟩ 0 .ErrEOF ⟨1, 2, 3⟩ (by decide)⟩

/-! ## Claim C3: `recoverYFromXAffine` error taxonomy -/

theorem sqrt_none_iff {sqrt : F → Option F} (hs : SqrtSpec sqrt) (z : F) :
    sqrt z = none ↔ ¬ IsSquare z := by
  constructor
  · intro hn hsq
    have := hs.complete z hsq
    rw [hn] at this
    simp at this
  · intro hnsq
    rcases hz : sqrt z with _ | r
    · rfl
    · exact absurd ⟨r, (hs.sq z r hz).symm⟩ hnsq

theorem Jacobi_vals (x : F) : Jacobi x = -1 ∨ Jacobi x = 0 ∨ Jacobi x = 1 := by
  unfold Jacobi
  split_ifs <;> simp

/-- C3.  For every `x`: the numerator `1 + 5x²` and denominator `1 - dx²`
never vanish; with `legendreCheckX = true`, when `Jacobi(1 + 5x²) = -1`
but `(1 + 5x²)/(1 - dx²)` still has a square root the function returns
`ErrXNotInSubgroup` together with such a root (a meaningful curve
coordinate), and returns `ErrXNotOnCurve` when no root exists; when the
Jacobi symbol is not `-1` and a root exists, it returns that root with a
nil error.  With the flag off, `ErrXNotOnCurve` is returned exactly when
`(1 + 5x²)/(1 - dx²)` is a non-square, and any successful return carries
`y` with `y² = (1 + 5x²)/(1 - dx²)`. -/
theorem recoverYFromXAffine_char (sqrt : F → Option F) (hs : SqrtSpec sqrt) (x : F) :
    (5 * (x * x) + 1 ≠ 0 ∧ 1 - CurveParameterD_fe * (x * x) ≠ 0) ∧
    (Jacobi (5 * (x * x) + 1) = -1 →
      IsSquare ((5 * (x * x) + 1) * finv (1 - CurveParameterD_fe * (x * x))) →
      ∃ y, recoverYFromXAffine sqrt x true = (y, some .ErrXNotInSubgroup) ∧
        y * y = (5 * (x * x) + 1) * finv (1 - CurveParameterD_fe * (x * x))) ∧
    (¬ IsSquare ((5 * (x * x) + 1) * finv (1 - CurveParameterD_fe * (x * x))) →
      (recoverYFromXAffine sqrt x true).2 = some .ErrXNotOnCurve) ∧
    (Jacobi (5 * (x * x) + 1) ≠ -1 →
      IsSquare ((5 * (x * x) + 1) * finv (1 - CurveParameterD_fe * (x * x))) →
      ∃ y, recoverYFromXAffine sqrt x true = (y, none) ∧
        y * y = (5 * (x * x) + 1) * finv (1 - CurveParameterD_fe * (x * x))) ∧
    ((recoverYFromXAffine sqrt x false).2 = some .ErrXNotOnCurve ↔
      ¬ IsSquare ((5 * (x * x) + 1) * finv (1 - CurveParameterD_fe * (x * x)))) ∧
    (∀ y, recoverYFromXAffine sqrt x false = (y, none) →
      y * y = (5 * (x * x) + 1) * finv (1 - CurveParameterD_fe * (x * x))) := by
  refine ⟨⟨recNum_ne_zero x, recDenom_ne_zero x⟩, ?_, ?_, ?_, ?_, ?_⟩
  · intro hj hsq
    obtain ⟨r, hr⟩ := Option.isSome_iff_exists.mp (hs.complete _ hsq)
    refine ⟨r, ?_, hs.sq _ r hr⟩
    simp only [recoverYFromXAffine]
    split_ifs with hc
    · rw [hr]
    · exact absurd ⟨by simp, by omega⟩ hc
  · intro hnsq
    have hn := (sqrt_none_iff hs _).mpr hnsq
    simp only [recoverYFromXAffine]
    split_ifs <;> rw [hn]
  · intro hj hsq
    obtain ⟨r, hr⟩ := Option.isSome_iff_exists.mp (hs.complete _ hsq)
    refine ⟨r, ?_, hs.sq _ r hr⟩
    simp only [recoverYFromXAffine]
    split_ifs with hc
    · exfalso
      rcases Jacobi_vals (5 * (x * x) + 1) with hv | hv | hv <;>
        · have := hc.2
          omega
    · rw [hr]
  · simp only [recoverYFromXAffine, Bool.false_eq_true, false_and, if_false]
    rcases hr : sqrt ((5 * (x * x) + 1) * finv (1 - CurveParameterD_fe * (x * x)))
        with _ | r
    · simp [(sqrt_none_iff hs _).mp hr]
    · simp only
      constructor
      · intro hcontra
        simp at hcontra
      · intro hnsq
        exact absurd ⟨r, (hs.sq _ r hr).symm⟩ hnsq
  · intro y hy
    simp only [recoverYFromXAffine, Bool.false_eq_true, false_and, if_false] at hy
    rcases hr : sqrt ((5 * (x * x) + 1) * finv (1 - CurveParameterD_fe * (x * x)))
        with _ | r <;> rw [hr] at hy
    · simp at hy
    · simp only [Prod.mk.injEq] at hy
      rw [← hy.1]
      exact hs.sq _ r hr

/-- Witness for C3: the square-root oracle specification is satisfiable
(by `listSqrt`), and at `x = 0` neither numerator nor denominator
vanishes. -/
theorem recoverYFromXAffine_char_witness :
    SqrtSpec listSqrt ∧
    (5 * ((0 : F) * 0) + 1 ≠ 0 ∧ 1 - CurveParameterD_fe * ((0 : F) * 0) ≠ 0) :=
  ⟨listSqrt_spec, (recoverYFromXAffine_char listSqrt listSqrt_spec 0).1⟩

/-! ## Claim C6: `Y+signX` rejects the negative-zero encodings -/

theorem d_ne_a : CurveParameterD_fe ≠ CurveParameterA_fe := by decide

theorem recoverX_of_y_sq_one {sqrt : F → Option F} (hs : SqrtSpec sqrt) {y : F}
    (hy : y * y = 1) : recoverXFromYAffine sqrt y = (0, none) := by
  simp only [recoverXFromYAffine]
  have hden : ¬ (CurveParameterD_fe * (y * y) - CurveParameterA_fe = 0) := by
    rw [hy, mul_one]
    intro h0
    exact d_ne_a (sub_eq_zero.mp h0)
  rw [if_neg hden]
  have hnum : y * y - 1 = 0 := by rw [hy]; ring
  rw [hnum, zero_mul]
  obtain ⟨r, hr⟩ := Option.isSome_iff_exists.mp (hs.complete 0 ⟨0, by ring⟩)
  rw [hr]
  rw [mul_self_eq_zero.mp (hs.sq 0 r hr)]

theorem yAndSignX_full_x_zero {sqrt : F → Option F} (hs : SqrtSpec sqrt) {y : F}
    (hy : y * y = 1) {s : ℤ} (hsv : s = 1 ∨ s = -1) :
    CurvePointFromYAndSignX_full sqrt y s UntrustedInput = .ok ⟨0, y, 0⟩ := by
  unfold CurvePointFromYAndSignX_full
  rw [if_neg (by omega), if_neg (not_not_intro hsv)]
  rw [recoverX_of_y_sq_one hs hy]
  simp only
  rw [if_pos (by rw [Sign_zero_eq]; omega)]
  norm_num

theorem isInSubgroup_neutral {e1 : F → Bool} (he1 : e1 1 = true) :
    IsInSubgroup e1 0 1 := by
  constructor
  · rw [legendreCheckA_affineX]
    have : (1 : F) - CurveParameterA_fe * 0 ^ 2 = 1 := by ring
    rw [this, Jacobi_one_eq]
    omega
  · exact he1

theorem untrusted_v : UntrustedInput.v = false := rfl

theorem setFromSubgroupPoint_ok {e1 : F → Bool} {rec inp : Point_axtw}
    (hnap : ¬ inp.IsNaP) (hsub : IsInSubgroup e1 inp.x inp.y) :
    SetFromSubgroupPoint e1 rec inp false = (inp, true) := by
  unfold SetFromSubgroupPoint
  rw [if_neg hnap]
  simp only [Bool.false_eq_true, if_false]
  rw [if_pos hsub]

theorem yAndSignX_subgroup_neutral {sqrt : F → Option F} (hs : SqrtSpec sqrt)
    {e1 : F → Bool} (he1 : e1 1 = true) {s : ℤ} (hsv : s = 1 ∨ s = -1) :
    CurvePointFromYAndSignX_subgroup sqrt e1 1 s UntrustedInput = .ok ⟨0, 1, 0⟩ := by
  unfold CurvePointFromYAndSignX_subgroup
  rw [yAndSignX_full_x_zero hs (by rw [one_mul]) hsv]
  have hset : SetFromSubgroupPoint e1 Point_axtw.zero ⟨0, 1, 0⟩ UntrustedInput.v =
      (⟨0, 1, 0⟩, true) := by
    rw [untrusted_v]
    exact setFromSubgroupPoint_ok (by simp [Point_axtw.IsNaP]) (isInSubgroup_neutral he1)
  simp only
  rw [hset]
  rfl

/-- C6.  For the `Y+signX` scheme with untrusted input: a well-formed
32-byte encoding whose recovered point has `x = 0` (equivalently
`y² = 1`, i.e. `y = ±1`; for a subgroup-restricted target the point is
the neutral element, `y = 1`) but whose sign bit is `1` is rejected with
`ErrUnexpectedNegativeZero`; the same word with sign bit `0` is
accepted, so exactly one (sign-bit-0) encoding of each such point
decodes. -/
theorem deserializeYAndSignX_negative_zero (sqrt : F → Option F)
    (hs : SqrtSpec sqrt) (e1 : F → Bool) (cfg : SerializerConfig)
    (input : List Byte) (outSub : Bool) (old : Point_axtw) (y : F) (n : ℕ) :
    ((cfg.subgroupOnly || outSub) = false →
      deserializeValuesFeCompressedBit cfg.endianLittle input = .ok (n, y, true) →
      y * y = 1 →
      deserializeYAndSignX sqrt e1 cfg input UntrustedInput outSub old =
        .error n .ErrUnexpectedNegativeZero old) ∧
    ((cfg.subgroupOnly || outSub) = false →
      deserializeValuesFeCompressedBit cfg.endianLittle input = .ok (n, y, false) →
      y * y = 1 →
      deserializeYAndSignX sqrt e1 cfg input UntrustedInput outSub old =
        .ok n ⟨0, y, 0⟩) ∧
    ((cfg.subgroupOnly || outSub) = true → e1 1 = true →
      deserializeValuesFeCompressedBit cfg.endianLittle input = .ok (n, 1, true) →
      deserializeYAndSignX sqrt e1 cfg input UntrustedInput outSub old =
        .error n .ErrUnexpectedNegativeZero old) ∧
    ((cfg.subgroupOnly || outSub) = true → e1 1 = true →
      deserializeValuesFeCompressedBit cfg.endianLittle input = .ok (n, 1, false) →
      deserializeYAndSignX sqrt e1 cfg input UntrustedInput outSub old =
        .ok n ⟨0, 1, 0⟩) := by
  refine ⟨fun hb hv hy => ?_, fun hb hv hy => ?_, fun hb he1 hv => ?_,
    fun hb he1 hv => ?_⟩
  · unfold deserializeYAndSignX
    rw [hv]
    simp only [hb, eq_self_iff_true, if_true, untrusted_v, Bool.false_eq_true,
      if_false, and_true, and_false]
    rw [yAndSignX_full_x_zero hs hy (Or.inr rfl)]
    simp
  · unfold deserializeYAndSignX
    rw [hv]
    simp only [hb, eq_self_iff_true, if_true, untrusted_v, Bool.false_eq_true,
      if_false, and_true, and_false]
    rw [yAndSignX_full_x_zero hs hy (Or.inl rfl)]
  · unfold deserializeYAndSignX
    rw [hv]
    simp only [hb, eq_self_iff_true, if_true, untrusted_v, Bool.false_eq_true,
      if_false, and_true, and_false]
    rw [yAndSignX_subgroup_neutral hs he1 (Or.inr rfl)]
    simp
  · unfold deserializeYAndSignX
    rw [hv]
    simp only [hb, eq_self_iff_true, if_true, untrusted_v, Bool.false_eq_true,
      if_false, and_true, and_false]
    rw [yAndSignX_subgroup_neutral hs he1 (Or.inl rfl)]

/-- Witness for C6: a concrete little-endian 32-byte word decoding to
`(y = 1, sign bit = 1)` (value `2^255 + 1`) is rejected with
`ErrUnexpectedNegativeZero` by the full-curve `Y+signX` deserializer. -/
theorem deserializeYAndSignX_negative_zero_witness :
    SqrtSpec listSqrt ∧
    deserializeValuesFeCompressedBit true
        (natToBytesLE 32 (2 ^ 255 + 1)) = .ok (32, 1, true) ∧
    (1 : F) * 1 = 1 ∧
    deserializeYAndSignX listSqrt (fun _ => true) ⟨true, ⟨0, 0⟩, ⟨0, 0⟩, false⟩
        (natToBytesLE 32 (2 ^ 255 + 1)) UntrustedInput false Point_axtw.zero =
      .error 32 .ErrUnexpectedNegativeZero Point_axtw.zero :=
  ⟨listSqrt_spec, by rfl, by norm_num,
   (deserializeYAndSignX_negative_zero listSqrt listSqrt_spec (fun _ => true)
       ⟨true, ⟨0, 0⟩, ⟨0, 0⟩, false⟩ (natToBytesLE 32 (2 ^ 255 + 1)) false
       Point_axtw.zero 1 32).1 rfl (by rfl) (by norm_num)⟩

/-! ## Claim C9: `MapToFieldElement` -/

/-- Two affine curve points with the same ratio `x/y` agree modulo the
affine two-torsion point `A`: the key injectivity step, using that `d`
is a non-square. -/
theorem ratio_inj {x1 y1 x2 y2 : F} (h1 : onCurveXY x1 y1) (h2 : onCurveXY x2 y2)
    (hr : x1 * finv y1 = x2 * finv y2) :
    eqModA ⟨x1, y1, x1 * y1⟩ ⟨x2, y2, x2 * y2⟩ := by
  have hy1 := onCurve_y_ne_zero h1
  have hy2 := onCurve_y_ne_zero h2
  rw [finv_eq_inv, finv_eq_inv] at hr
  have hcross : x1 * y2 = x2 * y1 := by
    field_simp at hr
    linear_combination hr
  have hx1 : x1 = x1 * y1⁻¹ * y1 := by field_simp
  have hx2 : x2 = x1 * y1⁻¹ * y2 := by
    field_simp
    linear_combination -hcross
  set c := x1 * y1⁻¹ with hc
  by_cases hsq : y1 ^ 2 = y2 ^ 2
  · rcases sq_eq_sq_cases hsq.symm with hy | hy
    · left
      refine ⟨?_, hy.symm, ?_⟩
      · rw [hx1, hx2, hy]
      · rw [hx1, hx2, hy]
    · right
      refine ⟨?_, ?_, ?_⟩
      · rw [hx1, hx2, hy]
        ring
      · rw [hy]
        ring
      · rw [hx1, hx2, hy]
        ring
  · exfalso
    apply not_isSquare_D
    apply isSquare_of_mul_sq (x := c * (y1 * y2))
    rw [onCurveXY] at h1 h2
    rw [hx1] at h1
    rw [hx2] at h2
    have hdiff : (CurveParameterA_fe * c ^ 2 + 1 -
        CurveParameterD_fe * c ^ 2 * (y1 ^ 2 + y2 ^ 2)) * (y1 ^ 2 - y2 ^ 2) = 0 := by
      linear_combination h1 - h2
    have hkey : CurveParameterA_fe * c ^ 2 + 1 =
        CurveParameterD_fe * c ^ 2 * (y1 ^ 2 + y2 ^ 2) := by
      rcases mul_eq_zero.mp hdiff with hz | hz
      · linear_combination hz
      · exact absurd (by linear_combination hz) hsq
    linear_combination h1 - y1 ^ 2 * hkey

/-- C9.  `MapToFieldElement` panics exactly on points at infinity and
NaPs; otherwise it returns `X/Y` computed from the (sign-ambiguous,
decaf) coordinates.  The value is independent of the representative
(`(x, y)` and `(-x, -y)` map to the same field element, so the map is
well-defined on Banderwagon elements), the neutral element maps to `0`,
and on-curve subgroup points with equal images coincide modulo `A` —
injectivity on the prime-order subgroup. -/
theorem mapToFieldElement_props (e1 : F → Bool) :
    (∀ input : CurvePointRead,
      MapToFieldElement input = .panic ↔
        (input.view.isAtInfinity = true ∨ input.view.isNaP = true)) ∧
    (∀ input : CurvePointRead, input.view.isAtInfinity = false →
      input.view.isNaP = false →
      MapToFieldElement input = .ok (input.x * finv input.y)) ∧
    (∀ (v : PointView) (x y : F), v.isAtInfinity = false → v.isNaP = false →
      MapToFieldElement ⟨v, -x, -y⟩ = MapToFieldElement ⟨v, x, y⟩) ∧
    (∀ v : PointView, v.isAtInfinity = false → v.isNaP = false →
      MapToFieldElement ⟨v, 0, 1⟩ = .ok 0) ∧
    (∀ (v1 v2 : PointView) (x1 y1 x2 y2 : F),
      v1.isAtInfinity = false → v1.isNaP = false →
      v2.isAtInfinity = false → v2.isNaP = false →
      onCurveXY x1 y1 → onCurveXY x2 y2 →
      IsInSubgroup e1 x1 y1 → IsInSubgroup e1 x2 y2 →
      MapToFieldElement ⟨v1, x1, y1⟩ = MapToFieldElement ⟨v2, x2, y2⟩ →
      eqModA ⟨x1, y1, x1 * y1⟩ ⟨x2, y2, x2 * y2⟩) := by
  have hok : ∀ (v : PointView) (x y : F), v.isAtInfinity = false → v.isNaP = false →
      MapToFieldElement ⟨v, x, y⟩ = .ok (x * finv y) := by
    intro v x y hinf hnap
    unfold MapToFieldElement
    simp [hinf, hnap]
  refine ⟨?_, ?_, ?_, ?_, ?_⟩
  · intro input
    unfold MapToFieldElement
    rcases hinf : input.view.isAtInfinity <;> rcases hnap : input.view.isNaP <;>
      simp [hinf, hnap]
  · intro input hinf hnap
    unfold MapToFieldElement
    simp [hinf, hnap]
  · intro v x y hinf hnap
    rw [hok v _ _ hinf hnap, hok v _ _ hinf hnap]
    rw [finv_eq_inv, finv_eq_inv, inv_neg]
    ring_nf
  · intro v hinf hnap
    rw [hok v _ _ hinf hnap, zero_mul]
  · intro v1 v2 x1 y1 x2 y2 hinf1 hnap1 hinf2 hnap2 hc1 hc2 _ _ heq
    rw [hok v1 _ _ hinf1 hnap1, hok v2 _ _ hinf2 hnap2] at heq
    exact ratio_inj hc1 hc2 (by injection heq)

/-- Witness for C9: the neutral element's decaf coordinates `(0, 1)` map
to the field element `0`. -/
theorem mapToFieldElement_props_witness :
    MapToFieldElement ⟨⟨false, false, true⟩, 0, 1⟩ = .ok 0 :=
  (mapToFieldElement_props (fun _ => true)).2.2.2.1 ⟨false, false, true⟩ rfl rfl

/-! ## Claim C2: trusted fast-path behaviour

The claim "when the input is invalid, Trusted panics rather than
returning" fails on the code: validity checks that the trusted path
skips entirely (NaP/curve/subgroup membership) produce neither an error
nor a panic — the trusted call silently succeeds with an unvalidated
point.  `trusted_silent_accept` exhibits this on the XY scheme with an
all-zero 64-byte word: untrusted deserialization rejects it
(`ErrCannotDeserializeXYAllZero`), while trusted deserialization returns
success carrying the NaP.  What does hold is proved in
`trusted_untrusted_parity` below. -/

theorem trusted_v : TrustedInput.v = true := rfl

/-- Counterexample to C2 as stated: an invalid input (the all-zero XY
word, rejected by the untrusted path) on which the Trusted call does not
panic but silently returns success with a garbage (NaP) point. -/
theorem trusted_silent_accept :
    deserializeScheme .XY listSqrt (fun _ => true) ⟨true, ⟨0, 0⟩, ⟨0, 0⟩, false⟩
        (List.replicate 64 (0 : Byte)) UntrustedInput false Point_axtw.zero =
      .error 64 .ErrCannotDeserializeXYAllZero Point_axtw.zero ∧
    deserializeScheme .XY listSqrt (fun _ => true) ⟨true, ⟨0, 0⟩, ⟨0, 0⟩, false⟩
        (List.replicate 64 (0 : Byte)) TrustedInput false Point_axtw.zero =
      .ok 64 Point_axtw.zero := by
  constructor <;> rfl

theorem consumeCRes_ok_inv {t : Bool} {n : ℕ} {old : Point_axtw} {res : CRes}
    {n' : ℕ} {P : Point_axtw} (h : consumeCRes t n old res = .ok n' P) :
    res = .ok P ∧ n' = n := by
  unfold consumeCRes at h
  cases res with
  | ok Q => simp_all
  | error Q e => split_ifs at h <;> simp_all
  | panic e => simp_all

theorem consumeCRes_trusted_no_error {n : ℕ} {old : Point_axtw} {res : CRes}
    {n' : ℕ} {e : Err} {pt : Point_axtw} :
    consumeCRes true n old res ≠ .error n' e pt := by
  unfold consumeCRes
  cases res <;> simp

theorem finv_ne_zero {z : F} (hz : z ≠ 0) : finv z ≠ 0 := by
  rw [finv_eq_inv]
  exact inv_ne_zero hz

theorem ratio_ne_zero (x : F) :
    (5 * (x * x) + 1) * finv (1 - CurveParameterD_fe * (x * x)) ≠ 0 :=
  mul_ne_zero (recNum_ne_zero x) (finv_ne_zero (recDenom_ne_zero x))

theorem recoverY_ok_sqrt {sqrt : F → Option F} {x y0 : F} {flag : Bool}
    (h : recoverYFromXAffine sqrt x flag = (y0, none)) :
    sqrt ((5 * (x * x) + 1) * finv (1 - CurveParameterD_fe * (x * x))) = some y0 := by
  simp only [recoverYFromXAffine] at h
  split_ifs at h <;>
    rcases hsq : sqrt ((5 * (x * x) + 1) * finv (1 - CurveParameterD_fe * (x * x)))
      with _ | r <;> rw [hsq] at h <;> simp_all

theorem recoverY_true_to_false {sqrt : F → Option F} {x y0 : F}
    (h : recoverYFromXAffine sqrt x true = (y0, none)) :
    recoverYFromXAffine sqrt x false = (y0, none) := by
  have hsq := recoverY_ok_sqrt h
  simp only [recoverYFromXAffine, Bool.false_eq_true, false_and, if_false]
  rw [hsq]

theorem recoverY_ok_ne_zero {sqrt : F → Option F} (hs : SqrtSpec sqrt) {x y0 : F}
    {flag : Bool} (h : recoverYFromXAffine sqrt x flag = (y0, none)) : y0 ≠ 0 := by
  intro h0
  have hsq := recoverY_ok_sqrt h
  have := hs.sq _ _ hsq
  apply ratio_ne_zero x
  rw [← this, h0, mul_zero]

theorem setFromSubgroupPoint_trusted {e1 : F → Bool} {rec inp : Point_axtw}
    (hnap : ¬ inp.IsNaP) : SetFromSubgroupPoint e1 rec inp true = (inp, true) := by
  unfold SetFromSubgroupPoint
  rw [if_neg hnap, if_pos rfl]

theorem setFromSubgroupPoint_ok_inv {e1 : F → Bool} {rec inp pt : Point_axtw}
    (h : SetFromSubgroupPoint e1 rec inp false = (pt, true)) :
    pt = inp ∧ ¬ inp.IsNaP := by
  unfold SetFromSubgroupPoint at h
  split_ifs at h <;> simp_all

theorem xyAffine_full_parity {x y : F} {P : Point_axtw}
    (h : CurvePointFromXYAffine_full x y UntrustedInput = (P, none)) :
    CurvePointFromXYAffine_full x y TrustedInput = (P, none) := by
  unfold CurvePointFromXYAffine_full at h ⊢
  rw [if_neg (by rw [untrusted_v]; simp)] at h
  rw [if_pos (by rw [trusted_v])]
  split_ifs at h <;> simp_all

theorem xyAffine_subgroup_parity {e1 : F → Bool} {x y : F} {P : Point_axtw}
    (h : CurvePointFromXYAffine_subgroup e1 x y UntrustedInput = (P, none)) :
    CurvePointFromXYAffine_subgroup e1 x y TrustedInput = (P, none) := by
  unfold CurvePointFromXYAffine_subgroup at h ⊢
  rcases hfull : CurvePointFromXYAffine_full x y UntrustedInput with ⟨P1, e'⟩
  rw [hfull] at h
  cases e' with
  | some e'' => simp at h
  | none =>
    simp only at h
    rcases hset : SetFromSubgroupPoint e1 Point_axtw.zero P1 UntrustedInput.v
      with ⟨pt, ok⟩
    rw [hset] at h
    cases ok with
    | false => simp at h
    | true =>
      rw [untrusted_v] at hset
      obtain ⟨hpt, hnap⟩ := setFromSubgroupPoint_ok_inv hset
      rw [xyAffine_full_parity hfull]
      simp only
      rw [trusted_v, setFromSubgroupPoint_trusted hnap]
      simp_all

theorem xAndSignY_full_parity {sqrt : F → Option F} {x : F} {s : ℤ} {P : Point_axtw}
    (h : CurvePointFromXAndSignY_full sqrt x s UntrustedInput = .ok P) :
    CurvePointFromXAndSignY_full sqrt x s TrustedInput = .ok P := by
  unfold CurvePointFromXAndSignY_full at h ⊢
  by_cases h1 : ¬ (s = 1 ∨ s = -1)
  · rw [if_pos h1] at h
    split_ifs at h <;> simp_all
  · rw [if_neg h1] at h
    rw [if_neg h1]
    rcases hrec : recoverYFromXAffine sqrt x false with ⟨y0, e'⟩
    rw [hrec] at h
    cases e' with
    | some e'' =>
      simp only at h
      split_ifs at h <;> simp_all
    | none => exact h

theorem xAndSignY_subgroup_parity {sqrt : F → Option F} (hs : SqrtSpec sqrt)
    {e1 : F → Bool} {x : F} {s : ℤ} {P : Point_axtw}
    (h : CurvePointFromXAndSignY_subgroup sqrt e1 x s UntrustedInput = .ok P) :
    CurvePointFromXAndSignY_subgroup sqrt e1 x s TrustedInput = .ok P := by
  unfold CurvePointFromXAndSignY_subgroup at h ⊢
  by_cases h1 : ¬ (s = 1 ∨ s = -1)
  · rw [if_pos h1] at h
    split_ifs at h <;> simp_all
  · rw [if_neg h1] at h
    rw [if_neg h1]
    rw [if_neg (by rw [untrusted_v]; simp)] at h
    rw [if_pos (by rw [trusted_v])]
    rcases hrec : recoverYFromXAffine sqrt x true with ⟨y0, e'⟩
    rw [hrec] at h
    cases e' with
    | some e'' => simp at h
    | none =>
      simp only at h
      by_cases he : e1 (if Sign y0 ≠ s then -y0 else y0) = true
      · rw [if_pos he] at h
        have hy0 : y0 ≠ 0 := recoverY_ok_ne_zero hs hrec
        have hyadj : ¬ (if Sign y0 = s then y0 else -y0) = 0 := by
          split_ifs
          · exact hy0
          · exact neg_ne_zero.mpr hy0
        have hok : CurvePointFromXAndSignY_full sqrt x s TrustedInput =
            .ok ⟨x, if Sign y0 ≠ s then -y0 else y0,
                  x * (if Sign y0 ≠ s then -y0 else y0)⟩ := by
          unfold CurvePointFromXAndSignY_full
          rw [if_neg h1, recoverY_true_to_false hrec]
        rw [hok]
        simp only
        rw [setFromSubgroupPoint_trusted
          (by simp [Point_axtw.IsNaP]; intro _; exact hyadj)]
        exact h
      · rw [if_neg he] at h
        simp at h

theorem yAndSignX_full_parity {sqrt : F → Option F} {y : F} {s : ℤ} {P : Point_axtw}
    (h : CurvePointFromYAndSignX_full sqrt y s UntrustedInput = .ok P) :
    CurvePointFromYAndSignX_full sqrt y s TrustedInput = .ok P := by
  unfold CurvePointFromYAndSignX_full at h ⊢
  by_cases h0 : s = 0
  · rw [if_pos h0] at h ⊢
    exact h
  · rw [if_neg h0] at h ⊢
    by_cases h1 : ¬ (s = 1 ∨ s = -1)
    · rw [if_pos h1] at h
      simp at h
    · rw [if_neg h1] at h
      rw [if_neg h1]
      rcases hrec : recoverXFromYAffine sqrt y with ⟨x0, e'⟩
      rw [hrec] at h
      cases e' with
      | some e'' =>
        simp only at h
        split_ifs at h <;> simp_all
      | none => exact h

theorem yAndSignX_subgroup_parity {sqrt : F → Option F} {e1 : F → Bool} {y : F}
    {s : ℤ} {P : Point_axtw}
    (h : CurvePointFromYAndSignX_subgroup sqrt e1 y s UntrustedInput = .ok P) :
    CurvePointFromYAndSignX_subgroup sqrt e1 y s TrustedInput = .ok P := by
  unfold CurvePointFromYAndSignX_subgroup at h ⊢
  cases hfull : CurvePointFromYAndSignX_full sqrt y s UntrustedInput with
  | panic e' =>
    rw [hfull] at h
    simp at h
  | error P' e' =>
    rw [hfull] at h
    simp at h
  | ok P1 =>
    rw [hfull] at h
    simp only at h
    rcases hset : SetFromSubgroupPoint e1 Point_axtw.zero P1 UntrustedInput.v
      with ⟨pt, ok⟩
    rw [hset] at h
    cases ok with
    | false => simp at h
    | true =>
      rw [untrusted_v] at hset
      obtain ⟨hpt, hnap⟩ := setFromSubgroupPoint_ok_inv hset
      rw [yAndSignX_full_parity hfull]
      simp only
      rw [trusted_v, setFromSubgroupPoint_trusted hnap]
      simp_all

theorem xTimesSignY_parity {sqrt : F → Option F} {xs : F} {P : Point_axtw}
    (h : CurvePointFromXTimesSignY_subgroup sqrt xs UntrustedInput = .ok P) :
    CurvePointFromXTimesSignY_subgroup sqrt xs TrustedInput = .ok P := by
  unfold CurvePointFromXTimesSignY_subgroup at h ⊢
  rw [show (! UntrustedInput.v) = true from rfl] at h
  rw [show (! TrustedInput.v) = false from rfl]
  rcases hrec : recoverYFromXAffine sqrt xs true with ⟨y0, e'⟩
  rw [hrec] at h
  cases e' with
  | some e'' => simp at h
  | none =>
    rw [recoverY_true_to_false hrec]
    exact h

theorem xyTimesSignY_parity {xs ys : F} {P : Point_axtw}
    (h : CurvePointFromXYTimesSignY_subgroup xs ys UntrustedInput = .ok P) :
    CurvePointFromXYTimesSignY_subgroup xs ys TrustedInput = .ok P := by
  unfold CurvePointFromXYTimesSignY_subgroup at h ⊢
  rw [if_neg (by rw [trusted_v]; simp)]
  rw [if_pos (by rw [trusted_v])]
  by_cases hsig : ¬ UntrustedInput.v = true ∧ Sign ys ≤ 0
  · rw [if_pos hsig] at h
    simp at h
  · rw [if_neg hsig] at h
    rw [if_neg (by rw [untrusted_v]; simp)] at h
    simp only at h
    split at h
    · simp at h
    · exact h

theorem deserializeXY_parity (sqrt : F → Option F) (e1 : F → Bool)
    (cfg : SerializerConfig) (input : List Byte) (outSub : Bool)
    (old : Point_axtw) :
    (∀ n P, deserializeXY sqrt e1 cfg input UntrustedInput outSub old = .ok n P →
      deserializeXY sqrt e1 cfg input TrustedInput outSub old = .ok n P) ∧
    (∀ n e pt,
      deserializeXY sqrt e1 cfg input TrustedInput outSub old = .error n e pt →
      deserializeXY sqrt e1 cfg input UntrustedInput outSub old = .error n e pt) := by
  unfold deserializeXY
  cases hc : deserializeValuesHeaderFeHeaderFe cfg.endianLittle cfg.h1 cfg.h2 input with
  | error pr =>
    rcases pr with ⟨n0, e0⟩
    exact ⟨fun n P h => absurd h (by simp), fun n e pt h => h⟩
  | ok tr =>
    rcases tr with ⟨n0, X, Y⟩
    simp only
    by_cases hsub : (cfg.subgroupOnly || outSub) = true
    · simp only [hsub, eq_self_iff_true, if_true]
      constructor
      · intro n P h
        rcases hcp : CurvePointFromXYAffine_subgroup e1 X Y UntrustedInput with ⟨P1, oe⟩
        rw [hcp] at h
        cases oe with
        | some e'' => simp [untrusted_v] at h
        | none =>
          rw [xyAffine_subgroup_parity hcp]
          exact h
      · intro n e pt h
        rcases hcp : CurvePointFromXYAffine_subgroup e1 X Y TrustedInput with ⟨P1, oe⟩
        rw [hcp] at h
        cases oe with
        | some e'' => simp [trusted_v] at h
        | none => simp at h
    · simp only [Bool.not_eq_true] at hsub
      simp only [hsub, Bool.false_eq_true, if_false]
      constructor
      · intro n P h
        rcases hcp : CurvePointFromXYAffine_full X Y UntrustedInput with ⟨P1, oe⟩
        rw [hcp] at h
        cases oe with
        | some e'' => simp [untrusted_v] at h
        | none =>
          rw [xyAffine_full_parity hcp]
          exact h
      · intro n e pt h
        rcases hcp : CurvePointFromXYAffine_full X Y TrustedInput with ⟨P1, oe⟩
        rw [hcp] at h
        cases oe with
        | some e'' => simp [trusted_v] at h
        | none => simp at h

theorem deserializeXAndSignY_parity (sqrt : F → Option F) (hs : SqrtSpec sqrt)
    (e1 : F → Bool) (cfg : SerializerConfig) (input : List Byte) (outSub : Bool)
    (old : Point_axtw) :
    (∀ n P, deserializeXAndSignY sqrt e1 cfg input UntrustedInput outSub old = .ok n P →
      deserializeXAndSignY sqrt e1 cfg input TrustedInput outSub old = .ok n P) ∧
    (∀ n e pt,
      deserializeXAndSignY sqrt e1 cfg input TrustedInput outSub old = .error n e pt →
      deserializeXAndSignY sqrt e1 cfg input UntrustedInput outSub old = .error n e pt) := by
  unfold deserializeXAndSignY
  cases hc : deserializeValuesFeCompressedBit cfg.endianLittle input with
  | error pr =>
    rcases pr with ⟨n0, e0⟩
    exact ⟨fun n P h => absurd h (by simp), fun n e pt h => h⟩
  | ok tr =>
    rcases tr with ⟨n0, X, sb⟩
    simp only
    by_cases hsub : (cfg.subgroupOnly || outSub) = true
    · simp only [hsub, eq_self_iff_true, if_true]
      constructor
      · intro n P h
        obtain ⟨hok, hn⟩ := consumeCRes_ok_inv h
        subst hn
        rw [xAndSignY_subgroup_parity hs hok]
        rfl
      · intro n e pt h
        rw [trusted_v] at h
        exact absurd h consumeCRes_trusted_no_error
    · simp only [Bool.not_eq_true] at hsub
      simp only [hsub, Bool.false_eq_true, if_false]
      constructor
      · intro n P h
        obtain ⟨hok, hn⟩ := consumeCRes_ok_inv h
        subst hn
        rw [xAndSignY_full_parity hok]
        rfl
      · intro n e pt h
        rw [trusted_v] at h
        exact absurd h consumeCRes_trusted_no_error

theorem deserializeYAndSignX_parity (sqrt : F → Option F) (e1 : F → Bool)
    (cfg : SerializerConfig) (input : List Byte) (outSub : Bool)
    (old : Point_axtw) :
    (∀ n P, deserializeYAndSignX sqrt e1 cfg input UntrustedInput outSub old = .ok n P →
      deserializeYAndSignX sqrt e1 cfg input TrustedInput outSub old = .ok n P) ∧
    (∀ n e pt,
      deserializeYAndSignX sqrt e1 cfg input TrustedInput outSub old = .error n e pt →
      deserializeYAndSignX sqrt e1 cfg input UntrustedInput outSub old = .error n e pt) := by
  unfold deserializeYAndSignX
  cases hc : deserializeValuesFeCompressedBit cfg.endianLittle input with
  | error pr =>
    rcases pr with ⟨n0, e0⟩
    exact ⟨fun n P h => absurd h (by simp), fun n e pt h => h⟩
  | ok tr =>
    rcases tr with ⟨n0, Y, sb⟩
    simp only
    by_cases hsub : (cfg.subgroupOnly || outSub) = true
    · simp only [hsub, eq_self_iff_true, if_true]
      constructor
      · intro n P h
        cases hres : CurvePointFromYAndSignX_subgroup sqrt e1 Y
            (if sb then -1 else 1) UntrustedInput with
        | panic e' => rw [hres] at h; simp at h
        | error P' e' => rw [hres] at h; simp [untrusted_v] at h
        | ok P1 =>
          rw [hres] at h
          rw [yAndSignX_subgroup_parity hres]
          simp only at h ⊢
          by_cases hneg : P1.x = 0 ∧ sb = true
          · rw [if_pos hneg] at h
            simp [untrusted_v] at h
          · rw [if_neg hneg] at h
            rw [if_neg hneg]
            exact h
      · intro n e pt h
        cases hres : CurvePointFromYAndSignX_subgroup sqrt e1 Y
            (if sb then -1 else 1) TrustedInput with
        | panic e' => rw [hres] at h; simp at h
        | error P' e' => rw [hres] at h; simp [trusted_v] at h
        | ok P1 =>
          rw [hres] at h
          simp only at h
          by_cases hneg : P1.x = 0 ∧ sb = true
          · rw [if_pos hneg] at h
            simp [trusted_v] at h
          · rw [if_neg hneg] at h
            simp at h
    · simp only [Bool.not_eq_true] at hsub
      simp only [hsub, Bool.false_eq_true, if_false]
      constructor
      · intro n P h
        cases hres : CurvePointFromYAndSignX_full sqrt Y
            (if sb then -1 else 1) UntrustedInput with
        | panic e' => rw [hres] at h; simp at h
        | error P' e' => rw [hres] at h; simp [untrusted_v] at h
        | ok P1 =>
          rw [hres] at h
          rw [yAndSignX_full_parity hres]
          simp only at h ⊢
          by_cases hneg : P1.x = 0 ∧ sb = true
          · rw [if_pos hneg] at h
            simp [untrusted_v] at h
          · rw [if_neg hneg] at h
            rw [if_neg hneg]
            exact h
      · intro n e pt h
        cases hres : CurvePointFromYAndSignX_full sqrt Y
            (if sb then -1 else 1) TrustedInput with
        | panic e' => rw [hres] at h; simp at h
        | error P' e' => rw [hres] at h; simp [trusted_v] at h
        | ok P1 =>
          rw [hres] at h
          simp only at h
          by_cases hneg : P1.x = 0 ∧ sb = true
          · rw [if_pos hneg] at h
            simp [trusted_v] at h
          · rw [if_neg hneg] at h
            simp at h

theorem deserializeXTimesSignY_parity (sqrt : F → Option F)
    (cfg : SerializerConfig) (input : List Byte) (old : Point_axtw) :
    (∀ n P, deserializeXTimesSignY sqrt cfg input UntrustedInput old = .ok n P →
      deserializeXTimesSignY sqrt cfg input TrustedInput old = .ok n P) ∧
    (∀ n e pt,
      deserializeXTimesSignY sqrt cfg input TrustedInput old = .error n e pt →
      deserializeXTimesSignY sqrt cfg input UntrustedInput old = .error n e pt) := by
  unfold deserializeXTimesSignY
  cases hc : deserializeValuesHeaderFe cfg.endianLittle cfg.h1 input with
  | error pr =>
    rcases pr with ⟨n0, e0⟩
    exact ⟨fun n P h => absurd h (by simp), fun n e pt h => h⟩
  | ok tr =>
    rcases tr with ⟨n0, XSignY⟩
    simp only
    constructor
    · intro n P h
      obtain ⟨hok, hn⟩ := consumeCRes_ok_inv h
      subst hn
      rw [xTimesSignY_parity hok]
      rfl
    · intro n e pt h
      rw [trusted_v] at h
      exact absurd h consumeCRes_trusted_no_error

theorem deserializeYXTimesSignY_parity (cfg : SerializerConfig)
    (input : List Byte) (old : Point_axtw) :
    (∀ n P, deserializeYXTimesSignY cfg input UntrustedInput old = .ok n P →
      deserializeYXTimesSignY cfg input TrustedInput old = .ok n P) ∧
    (∀ n e pt,
      deserializeYXTimesSignY cfg input TrustedInput old = .error n e pt →
      deserializeYXTimesSignY cfg input UntrustedInput old = .error n e pt) := by
  unfold deserializeYXTimesSignY
  cases hc : deserializeValuesHeaderFeHeaderFe cfg.endianLittle cfg.h1 cfg.h2 input with
  | error pr =>
    rcases pr with ⟨n0, e0⟩
    exact ⟨fun n P h => absurd h (by simp), fun n e pt h => h⟩
  | ok tr =>
    rcases tr with ⟨n0, YSignY, XSignY⟩
    simp only
    constructor
    · intro n P h
      obtain ⟨hok, hn⟩ := consumeCRes_ok_inv h
      subst hn
      rw [xyTimesSignY_parity hok]
      rfl
    · intro n e pt h
      rw [trusted_v] at h
      exact absurd h consumeCRes_trusted_no_error

/-- **Claim C2** (amended).  The spec says a Trusted deserialization call
panics rather than returning when the input is invalid.  As stated this
fails (`trusted_silent_accept`): validity checks skipped on the trusted
path make the call silently return an unvalidated point, and codec-layer
errors are returned, not panicked, at every trust level.  Amended
statement, proved here for every scheme: (i) any successful untrusted
deserialization succeeds identically when trusted, and (ii) any error a
trusted call returns (necessarily from the byte/codec layer) is returned
identically by the untrusted call — trusted never reports an error the
untrusted path would not also report, and never succeeds with a
different point on input the untrusted path accepts. -/
theorem trusted_untrusted_parity (sid : SchemeId) (sqrt : F → Option F)
    (hs : SqrtSpec sqrt) (e1 : F → Bool) (cfg : SerializerConfig)
    (input : List Byte) (outSub : Bool) (old : Point_axtw) :
    (∀ n P,
      deserializeScheme sid sqrt e1 cfg input UntrustedInput outSub old = .ok n P →
      deserializeScheme sid sqrt e1 cfg input TrustedInput outSub old = .ok n P) ∧
    (∀ n e pt,
      deserializeScheme sid sqrt e1 cfg input TrustedInput outSub old = .error n e pt →
      deserializeScheme sid sqrt e1 cfg input UntrustedInput outSub old = .error n e pt) := by
  cases sid with
  | XY => exact deserializeXY_parity sqrt e1 cfg input outSub old
  | XAndSignY => exact deserializeXAndSignY_parity sqrt hs e1 cfg input outSub old
  | YAndSignX => exact deserializeYAndSignX_parity sqrt e1 cfg input outSub old
  | XTimesSignY => exact deserializeXTimesSignY_parity sqrt cfg input old
  | YXTimesSignY => exact deserializeYXTimesSignY_parity cfg input old

/-! ## Claim C1: serialize–deserialize roundtrip

Codec-level inversion facts first: the 32-byte little-endian word codec
and the two field-element codecs invert serialization whenever the value
fits under the configured header. -/

theorem natToBytesLE_length (k v : ℕ) : (natToBytesLE k v).length = k := by
  induction k generalizing v with
  | zero => rfl
  | succ k ih => simp [natToBytesLE, ih]

theorem bytesToNatLE_natToBytesLE (k v : ℕ) (h : v < 256 ^ k) :
    bytesToNatLE (natToBytesLE k v) = v := by
  induction k generalizing v with
  | zero =>
    simp only [pow_zero] at h
    have hv : v = 0 := by omega
    subst hv
    rfl
  | succ k ih =>
    have hdiv : v / 256 < 256 ^ k := by
      rw [Nat.div_lt_iff_lt_mul (by norm_num)]
      calc v < 256 ^ (k + 1) := h
        _ = 256 ^ k * 256 := by rw [pow_succ]
    simp only [natToBytesLE, bytesToNatLE, ih _ hdiv]
    show v % 256 + 256 * (v / 256) = v
    omega

theorem serializeFeHeader_length (el : Bool) (h : BitHeader) (x : F) :
    (serializeFeHeader el h x).length = 32 := by
  unfold serializeFeHeader
  cases el <;> simp [natToBytesLE_length]

theorem serializeFeCompressedBit_length (el : Bool) (x : F) (sb : Bool) :
    (serializeFeCompressedBit el x sb).length = 32 := by
  unfold serializeFeCompressedBit
  cases el <;> simp [natToBytesLE_length]

theorem p_lt_two_pow_255 : p < 2 ^ 255 := by decide

theorem two_pow_256_eq : (256 : ℕ) ^ 32 = 2 ^ 256 := by
  have h : (256 : ℕ) = 2 ^ 8 := rfl
  rw [h, ← pow_mul]
  norm_num

theorem deserializeFeHeader_roundtrip (el : Bool) (h : BitHeader) (x : F)
    (hb : h.bits < 2 ^ h.len) (hl : h.len ≤ 256)
    (hfit : x.val < 2 ^ (256 - h.len)) :
    deserializeFeHeader el h (serializeFeHeader el h x) = .ok x := by
  have hpos : 0 < 2 ^ (256 - h.len) := pow_pos (by norm_num) _
  have hkey : 2 ^ h.len * 2 ^ (256 - h.len) = 2 ^ 256 := by
    rw [← pow_add]
    congr 1
    omega
  have hV : h.bits * 2 ^ (256 - h.len) + x.val < 256 ^ 32 := by
    have h1 : (h.bits + 1) * 2 ^ (256 - h.len) ≤ 2 ^ h.len * 2 ^ (256 - h.len) :=
      Nat.mul_le_mul_right _ (by omega)
    have h2 : h.bits * 2 ^ (256 - h.len) + 2 ^ (256 - h.len) =
        (h.bits + 1) * 2 ^ (256 - h.len) := by ring
    rw [two_pow_256_eq]
    omega
  have hrt := bytesToNatLE_natToBytesLE 32 _ hV
  have hdiv : (h.bits * 2 ^ (256 - h.len) + x.val) / 2 ^ (256 - h.len) = h.bits := by
    rw [Nat.mul_comm, Nat.mul_add_div hpos, Nat.div_eq_of_lt hfit, Nat.add_zero]
  have hmod : (h.bits * 2 ^ (256 - h.len) + x.val) % 2 ^ (256 - h.len) = x.val := by
    rw [Nat.mul_comm, Nat.mul_add_mod, Nat.mod_eq_of_lt hfit]
  unfold serializeFeHeader deserializeFeHeader
  cases el
  · simp only [Bool.false_eq_true, if_false, List.reverse_reverse, hrt, hdiv, hmod]
    rw [if_neg (by simp), if_pos (ZMod.val_lt x)]
    rw [ZMod.natCast_rightInverse x]
  · simp only [if_true, hrt, hdiv, hmod]
    rw [if_neg (by simp), if_pos (ZMod.val_lt x)]
    rw [ZMod.natCast_rightInverse x]

theorem deserializeFeCompressedBit_roundtrip (el : Bool) (x : F) (sb : Bool) :
    deserializeFeCompressedBit el (serializeFeCompressedBit el x sb) =
      .ok (x, sb) := by
  have hxp : x.val < p := ZMod.val_lt x
  have hx255 : x.val < 2 ^ 255 := lt_trans hxp p_lt_two_pow_255
  have hV : (if sb then 2 ^ 255 else 0) + x.val < 256 ^ 32 := by
    rw [two_pow_256_eq]
    have : (2 : ℕ) ^ 256 = 2 ^ 255 + 2 ^ 255 := by ring
    cases sb <;> simp <;> omega
  have hrt := bytesToNatLE_natToBytesLE 32 _ hV
  have hmod : ((if sb then 2 ^ 255 else 0) + x.val) % 2 ^ 255 = x.val := by
    cases sb
    · simp only [Bool.false_eq_true, if_false, Nat.zero_add]
      exact Nat.mod_eq_of_lt hx255
    · simp only [if_true]
      rw [Nat.add_mod_left, Nat.mod_eq_of_lt hx255]
  have hdec : decide (2 ^ 255 ≤ (if sb then 2 ^ 255 else 0) + x.val) = sb := by
    cases sb
    · simp only [Bool.false_eq_true, if_false, Nat.zero_add]
      exact decide_eq_false (by omega)
    · simp only [if_true]
      exact decide_eq_true (by omega)
  unfold serializeFeCompressedBit deserializeFeCompressedBit
  cases el
  · simp only [Bool.false_eq_true, if_false, List.reverse_reverse, hrt, hmod, hdec]
    rw [if_pos hxp, ZMod.natCast_rightInverse x]
  · simp only [if_true, hrt, hmod, hdec]
    rw [if_pos hxp, ZMod.natCast_rightInverse x]

theorem deserializeValuesHeaderFe_roundtrip (el : Bool) (h : BitHeader) (x : F)
    (hb : h.bits < 2 ^ h.len) (hl : h.len ≤ 256)
    (hfit : x.val < 2 ^ (256 - h.len)) :
    deserializeValuesHeaderFe el h (serializeFeHeader el h x) = .ok (32, x) := by
  unfold deserializeValuesHeaderFe readFullBytes
  have hlen := serializeFeHeader_length el h x
  rw [if_pos (by omega)]
  simp only
  rw [List.take_of_length_le (by omega)]
  rw [deserializeFeHeader_roundtrip el h x hb hl hfit]

theorem deserializeValuesFeCompressedBit_roundtrip (el : Bool) (x : F) (sb : Bool) :
    deserializeValuesFeCompressedBit el (serializeFeCompressedBit el x sb) =
      .ok (32, x, sb) := by
  unfold deserializeValuesFeCompressedBit readFullBytes
  have hlen := serializeFeCompressedBit_length el x sb
  rw [if_pos (by omega)]
  simp only
  rw [List.take_of_length_le (by omega)]
  rw [deserializeFeCompressedBit_roundtrip el x sb]

theorem deserializeValuesHeaderFeHeaderFe_roundtrip (el : Bool) (h1 h2 : BitHeader)
    (x y : F)
    (hb1 : h1.bits < 2 ^ h1.len) (hl1 : h1.len ≤ 256)
    (hfx : x.val < 2 ^ (256 - h1.len))
    (hb2 : h2.bits < 2 ^ h2.len) (hl2 : h2.len ≤ 256)
    (hfy : y.val < 2 ^ (256 - h2.len)) :
    deserializeValuesHeaderFeHeaderFe el h1 h2
        (serializeFeHeader el h1 x ++ serializeFeHeader el h2 y) =
      .ok (64, x, y) := by
  unfold deserializeValuesHeaderFeHeaderFe readFullBytes
  have hlen1 := serializeFeHeader_length el h1 x
  have hlen2 := serializeFeHeader_length el h2 y
  rw [if_pos (by simp only [List.length_append]; omega)]
  simp only
  rw [List.take_left' hlen1, List.drop_left' hlen1]
  rw [deserializeFeHeader_roundtrip el h1 x hb1 hl1 hfx]
  rw [if_pos (by omega)]
  simp only
  rw [List.take_of_length_le (by omega)]
  rw [deserializeFeHeader_roundtrip el h2 y hb2 hl2 hfy]

theorem isPointOnCurve_mk {x y : F} : isPointOnCurve ⟨x, y, x * y⟩ ↔ onCurveXY x y := by
  unfold isPointOnCurve onCurveXY
  constructor <;> intro h <;> linear_combination h

theorem onCurve_recX_sq {x y : F} (h : onCurveXY x y) :
    (y * y - 1) * finv (CurveParameterD_fe * (y * y) - CurveParameterA_fe) = x ^ 2 := by
  rw [finv_eq_inv, mul_inv_eq_iff_eq_mul₀ (onCurve_recX_denom_ne_zero h)]
  rw [onCurveXY] at h
  linear_combination h

theorem recoverY_onCurve_false {sqrt : F → Option F} (hs : SqrtSpec sqrt) {x y : F}
    (h : onCurveXY x y) :
    ∃ y0, recoverYFromXAffine sqrt x false = (y0, none) ∧ y0 * y0 = y ^ 2 := by
  have hsq : IsSquare ((5 * (x * x) + 1) * finv (1 - CurveParameterD_fe * (x * x))) := by
    rw [onCurve_ratio h]
    exact ⟨y, by ring⟩
  obtain ⟨r, hr⟩ := Option.isSome_iff_exists.mp (hs.complete _ hsq)
  refine ⟨r, ?_, ?_⟩
  · simp only [recoverYFromXAffine, Bool.false_eq_true, false_and, if_false]
    rw [hr]
  · rw [← onCurve_ratio h]
    exact hs.sq _ _ hr

theorem recoverY_onCurve_true {sqrt : F → Option F} (hs : SqrtSpec sqrt) {x y : F}
    (h : onCurveXY x y) (hA : legendreCheckA_affineX x) :
    ∃ y0, recoverYFromXAffine sqrt x true = (y0, none) ∧ y0 * y0 = y ^ 2 := by
  obtain ⟨y0, h0, hsq⟩ := recoverY_onCurve_false hs h
  have hsqrt := recoverY_ok_sqrt h0
  have hnum : ¬ Jacobi (5 * (x * x) + 1) < 0 := by
    have := num_as_A x
    unfold legendreCheckA_affineX at hA
    rw [this]
    omega
  refine ⟨y0, ?_, hsq⟩
  simp only [recoverYFromXAffine]
  rw [if_neg (fun hc => hnum hc.2)]
  rw [hsqrt]

theorem recoverX_onCurve {sqrt : F → Option F} (hs : SqrtSpec sqrt) {x y : F}
    (h : onCurveXY x y) :
    ∃ x0, recoverXFromYAffine sqrt y = (x0, none) ∧ x0 * x0 = x ^ 2 := by
  have hsq : IsSquare ((y * y - 1) *
      finv (CurveParameterD_fe * (y * y) - CurveParameterA_fe)) := by
    rw [onCurve_recX_sq h]
    exact ⟨x, by ring⟩
  obtain ⟨r, hr⟩ := Option.isSome_iff_exists.mp (hs.complete _ hsq)
  refine ⟨r, ?_, ?_⟩
  · simp only [recoverXFromYAffine]
    rw [if_neg (onCurve_recX_denom_ne_zero h), hr]
  · rw [← onCurve_recX_sq h]
    exact hs.sq _ _ hr

theorem sign_adjust_eq {z0 z : F} {s : ℤ} (hz : z ≠ 0) (hsign : s = Sign z)
    (hsq : z0 * z0 = z ^ 2) :
    (if Sign z0 ≠ s then -z0 else z0) = z := by
  rcases sq_eq_sq_cases (a := z0) (b := z) (by rw [← hsq]; ring) with h1 | h1
  · subst h1
    rw [if_neg (by rw [hsign]; simp)]
  · subst h1
    rw [if_pos (by rw [hsign, Sign_neg hz]; rcases Sign_cases hz with h | h <;>
      rw [h] <;> decide)]
    ring

theorem sign_adjust_zero {z0 : F} {s : ℤ} (hz0 : z0 = 0) :
    (if Sign z0 ≠ s then -z0 else z0) = 0 := by
  subst hz0
  split_ifs <;> simp

theorem sign_normalize_pos {y : F} (hy : y ≠ 0) :
    Sign (if Sign y < 0 then -y else y) = 1 := by
  rcases Sign_cases hy with h | h
  · rw [if_neg (by rw [h]; decide), h]
  · rw [if_pos (by rw [h]; decide), Sign_neg hy, h]
    decide

theorem sign_abs_adjust {Y y0 : F} (hY : Sign Y = 1) (hsq : y0 * y0 = Y ^ 2) :
    (if Sign y0 < 0 then -y0 else y0) = Y := by
  have hYne : Y ≠ 0 := by
    intro h0
    rw [h0, Sign_eq_zero_iff.mpr rfl] at hY
    exact absurd hY (by decide)
  rcases sq_eq_sq_cases (a := y0) (b := Y) (by rw [← hsq]; ring) with h1 | h1
  · subst h1
    rw [if_neg (by rw [hY]; decide)]
  · subst h1
    rw [if_pos (by rw [Sign_neg hYne, hY]; decide)]
    ring

theorem signBit_eq_Sign {y : F} (hy : y ≠ 0) :
    (if decide (Sign y < 0) = true then (-1 : ℤ) else 1) = Sign y := by
  rcases Sign_cases hy with h | h <;> rw [h] <;> simp

theorem signBit_ne_zero (y : F) :
    (if decide (Sign y < 0) = true then (-1 : ℤ) else 1) = 1 ∨
    (if decide (Sign y < 0) = true then (-1 : ℤ) else 1) = -1 := by
  split_ifs <;> simp

theorem eqModA_normalize (x y : F) :
    eqModA ⟨if Sign y < 0 then -x else x, if Sign y < 0 then -y else y,
            (if Sign y < 0 then -x else x) * (if Sign y < 0 then -y else y)⟩
      ⟨x, y, x * y⟩ := by
  unfold eqModA
  split_ifs
  · exact Or.inr ⟨rfl, rfl, by ring⟩
  · exact Or.inl ⟨rfl, rfl, rfl⟩

theorem xyAffine_full_ok {x y : F} (h : onCurveXY x y) :
    CurvePointFromXYAffine_full x y UntrustedInput = (⟨x, y, x * y⟩, none) := by
  have hy := onCurve_y_ne_zero h
  unfold CurvePointFromXYAffine_full
  rw [if_neg (by rw [untrusted_v]; simp)]
  rw [if_neg (by simp only [Point_axtw.IsNaP]; exact fun hc => hy hc.2)]
  rw [if_neg (not_not_intro (isPointOnCurve_mk.mpr h))]

theorem xyAffine_subgroup_ok {e1 : F → Bool} {x y : F} (h : onCurveXY x y)
    (hsub : IsInSubgroup e1 x y) :
    CurvePointFromXYAffine_subgroup e1 x y UntrustedInput = (⟨x, y, x * y⟩, none) := by
  have hy := onCurve_y_ne_zero h
  unfold CurvePointFromXYAffine_subgroup
  rw [xyAffine_full_ok h]
  simp only [untrusted_v]
  have hnap : ¬ (Point_axtw.mk x y (x * y)).IsNaP := by
    simp only [Point_axtw.IsNaP]
    exact fun hc => hy hc.2
  rw [@setFromSubgroupPoint_ok e1 Point_axtw.zero ⟨x, y, x * y⟩ hnap hsub]
  rfl

theorem xAndSignY_full_ok {sqrt : F → Option F} (hs : SqrtSpec sqrt) {x y : F}
    (h : onCurveXY x y) :
    CurvePointFromXAndSignY_full sqrt x (Sign y) UntrustedInput =
      .ok ⟨x, y, x * y⟩ := by
  have hy := onCurve_y_ne_zero h
  obtain ⟨y0, h0, hsq⟩ := recoverY_onCurve_false hs h
  unfold CurvePointFromXAndSignY_full
  rw [if_neg (not_not_intro (Sign_cases hy))]
  rw [h0]
  simp only
  rw [sign_adjust_eq hy rfl hsq]

theorem xAndSignY_subgroup_ok {sqrt : F → Option F} (hs : SqrtSpec sqrt)
    {e1 : F → Bool} {x y : F} (h : onCurveXY x y) (hsub : IsInSubgroup e1 x y) :
    CurvePointFromXAndSignY_subgroup sqrt e1 x (Sign y) UntrustedInput =
      .ok ⟨x, y, x * y⟩ := by
  have hy := onCurve_y_ne_zero h
  obtain ⟨y0, h0, hsq⟩ := recoverY_onCurve_true hs h hsub.1
  unfold CurvePointFromXAndSignY_subgroup
  rw [if_neg (not_not_intro (Sign_cases hy))]
  rw [if_neg (by rw [untrusted_v]; simp)]
  rw [h0]
  simp only
  rw [sign_adjust_eq hy rfl hsq]
  rw [if_pos hsub.2]

theorem yAndSignX_full_ok {sqrt : F → Option F} (hs : SqrtSpec sqrt) {x y : F}
    (h : onCurveXY x y) :
    CurvePointFromYAndSignX_full sqrt y
        (if decide (Sign x < 0) = true then (-1 : ℤ) else 1) UntrustedInput =
      .ok ⟨x, y, x * y⟩ := by
  by_cases hx : x = 0
  · subst hx
    have hsgn : (if decide (Sign (0 : F) < 0) = true then (-1 : ℤ) else 1) = 1 := by
      rw [Sign_eq_zero_iff.mpr rfl]
      simp
    rw [hsgn]
    unfold CurvePointFromYAndSignX_full
    rw [if_neg (by decide)]
    rw [if_neg (by decide)]
    have hy1 : y * y = 1 := by
      rcases onCurve_x_zero h rfl with h1 | h1 <;> rw [h1] <;> ring
    rw [recoverX_of_y_sq_one hs hy1]
    simp only
    rw [sign_adjust_zero rfl]
  · rw [signBit_eq_Sign hx]
    unfold CurvePointFromYAndSignX_full
    rw [if_neg (fun h0 => hx (Sign_eq_zero_iff.mp h0))]
    rw [if_neg (not_not_intro (Sign_cases hx))]
    obtain ⟨x0, h0, hsq⟩ := recoverX_onCurve hs h
    rw [h0]
    simp only
    rw [sign_adjust_eq hx rfl hsq]

theorem yAndSignX_subgroup_ok {sqrt : F → Option F} (hs : SqrtSpec sqrt)
    {e1 : F → Bool} {x y : F} (h : onCurveXY x y) (hsub : IsInSubgroup e1 x y) :
    CurvePointFromYAndSignX_subgroup sqrt e1 y
        (if decide (Sign x < 0) = true then (-1 : ℤ) else 1) UntrustedInput =
      .ok ⟨x, y, x * y⟩ := by
  have hy := onCurve_y_ne_zero h
  unfold CurvePointFromYAndSignX_subgroup
  rw [yAndSignX_full_ok hs h]
  simp only [untrusted_v]
  have hnap : ¬ (Point_axtw.mk x y (x * y)).IsNaP := by
    simp only [Point_axtw.IsNaP]
    exact fun hc => hy hc.2
  rw [@setFromSubgroupPoint_ok e1 Point_axtw.zero ⟨x, y, x * y⟩ hnap hsub]
  rfl

theorem legendreCheckA_affineX_neg {x : F} (hA : legendreCheckA_affineX x) :
    legendreCheckA_affineX (-x) := by
  unfold legendreCheckA_affineX at hA ⊢
  rw [neg_sq]
  exact hA

theorem xTimesSignY_ok_gen {sqrt : F → Option F} (hs : SqrtSpec sqrt) {X Y : F}
    (h : onCurveXY X Y) (hS : Sign Y = 1) (hA : legendreCheckA_affineX X) :
    CurvePointFromXTimesSignY_subgroup sqrt X UntrustedInput =
      .ok ⟨X, Y, X * Y⟩ := by
  obtain ⟨y0, h0, hsq⟩ := recoverY_onCurve_true hs h hA
  unfold CurvePointFromXTimesSignY_subgroup
  rw [show (! UntrustedInput.v) = true from rfl, h0]
  simp only
  rw [sign_abs_adjust hS hsq]

theorem xyTimesSignY_ok_gen {X Y : F} (h : onCurveXY X Y) (hS : Sign Y = 1)
    (hJ : ¬ Jacobi (5 * (X * X) + 1) < 0) :
    CurvePointFromXYTimesSignY_subgroup X Y UntrustedInput = .ok ⟨X, Y, X * Y⟩ := by
  unfold CurvePointFromXYTimesSignY_subgroup
  rw [if_neg (fun hc => by rw [hS] at hc; exact absurd hc.2 (by decide))]
  rw [if_neg (by rw [untrusted_v]; simp)]
  simp only
  have hacc2 : 5 * (X * X) + 1 - Y * Y +
      CurveParameterD_fe * ((X * Y) * (X * Y)) = 0 := by
    rw [onCurveXY] at h
    simp only [CurveParameterA_fe] at h
    linear_combination -h
  rw [hacc2]
  rw [if_neg (not_not_intro rfl)]
  rw [if_neg hJ]

theorem checkPS_none {v : PointView} (hnap : v.isNaP = false)
    (hinf : v.isAtInfinity = false) {sc : Bool}
    (hsc : sc = true → v.isInSubgroup = true) :
    checkPointSerializability v sc = none := by
  unfold checkPointSerializability
  rw [if_neg (by simp [hnap]), if_neg (by simp [hinf])]
  rw [if_neg (fun hc => hc.2 (hsc hc.1))]

theorem roundtripXY (sqrt : F → Option F) (e1 : F → Bool) (cfg : SerializerConfig)
    (outSub : Bool) (old : Point_axtw) (v : PointView) {x y : F}
    (hnap : v.isNaP = false) (hinf : v.isAtInfinity = false)
    (hvs : cfg.subgroupOnly = true → v.isInSubgroup = true)
    (hcurve : onCurveXY x y)
    (hsubc : (cfg.subgroupOnly || outSub) = true → IsInSubgroup e1 x y)
    (hb1 : cfg.h1.bits < 2 ^ cfg.h1.len) (hl1 : cfg.h1.len ≤ 256)
    (hb2 : cfg.h2.bits < 2 ^ cfg.h2.len) (hl2 : cfg.h2.len ≤ 256)
    (hfx : x.val < 2 ^ (256 - cfg.h1.len)) (hfy : y.val < 2 ^ (256 - cfg.h2.len)) :
    ∀ n out, serializeXY cfg ⟨v, x, y⟩ = .ok n out →
      deserializeXY sqrt e1 cfg out UntrustedInput outSub old =
        .ok n ⟨x, y, x * y⟩ := by
  intro n out hser
  unfold serializeXY at hser
  rw [checkPS_none hnap hinf hvs] at hser
  simp only at hser
  simp only [SRes.ok.injEq] at hser
  obtain ⟨hn, hout⟩ := hser
  subst hn
  subst hout
  unfold deserializeXY
  rw [deserializeValuesHeaderFeHeaderFe_roundtrip cfg.endianLittle cfg.h1 cfg.h2
    x y hb1 hl1 hfx hb2 hl2 hfy]
  by_cases hb : (cfg.subgroupOnly || outSub) = true
  · simp only [hb, eq_self_iff_true, if_true]
    rw [xyAffine_subgroup_ok hcurve (hsubc hb)]
  · simp only [Bool.not_eq_true] at hb
    simp only [hb, Bool.false_eq_true, if_false]
    rw [xyAffine_full_ok hcurve]

theorem roundtripXAndSignY (sqrt : F → Option F) (hs : SqrtSpec sqrt)
    (e1 : F → Bool) (cfg : SerializerConfig) (outSub : Bool) (old : Point_axtw)
    (v : PointView) {x y : F}
    (hnap : v.isNaP = false) (hinf : v.isAtInfinity = false)
    (hvs : cfg.subgroupOnly = true → v.isInSubgroup = true)
    (hcurve : onCurveXY x y)
    (hsubc : (cfg.subgroupOnly || outSub) = true → IsInSubgroup e1 x y) :
    ∀ n out, serializeXAndSignY cfg ⟨v, x, y⟩ = .ok n out →
      deserializeXAndSignY sqrt e1 cfg out UntrustedInput outSub old =
        .ok n ⟨x, y, x * y⟩ := by
  intro n out hser
  have hy := onCurve_y_ne_zero hcurve
  unfold serializeXAndSignY at hser
  rw [checkPS_none hnap hinf hvs] at hser
  simp only at hser
  simp only [SRes.ok.injEq] at hser
  obtain ⟨hn, hout⟩ := hser
  subst hn
  subst hout
  unfold deserializeXAndSignY
  rw [deserializeValuesFeCompressedBit_roundtrip]
  simp only
  rw [signBit_eq_Sign hy]
  by_cases hb : (cfg.subgroupOnly || outSub) = true
  · simp only [hb, eq_self_iff_true, if_true]
    rw [xAndSignY_subgroup_ok hs hcurve (hsubc hb)]
    rfl
  · simp only [Bool.not_eq_true] at hb
    simp only [hb, Bool.false_eq_true, if_false]
    rw [xAndSignY_full_ok hs hcurve]
    rfl

theorem roundtripYAndSignX (sqrt : F → Option F) (hs : SqrtSpec sqrt)
    (e1 : F → Bool) (cfg : SerializerConfig) (outSub : Bool) (old : Point_axtw)
    (v : PointView) {x y : F}
    (hnap : v.isNaP = false) (hinf : v.isAtInfinity = false)
    (hvs : cfg.subgroupOnly = true → v.isInSubgroup = true)
    (hcurve : onCurveXY x y)
    (hsubc : (cfg.subgroupOnly || outSub) = true → IsInSubgroup e1 x y) :
    ∀ n out, serializeYAndSignX cfg ⟨v, x, y⟩ = .ok n out →
      deserializeYAndSignX sqrt e1 cfg out UntrustedInput outSub old =
        .ok n ⟨x, y, x * y⟩ := by
  intro n out hser
  have hy := onCurve_y_ne_zero hcurve
  have hneg : ¬ (x = 0 ∧ decide (Sign x < 0) = true) := by
    rintro ⟨hx0, hdec⟩
    rw [hx0, Sign_eq_zero_iff.mpr rfl] at hdec
    exact absurd hdec (by decide)
  unfold serializeYAndSignX at hser
  rw [checkPS_none hnap hinf hvs] at hser
  simp only at hser
  simp only [SRes.ok.injEq] at hser
  obtain ⟨hn, hout⟩ := hser
  subst hn
  subst hout
  unfold deserializeYAndSignX
  rw [deserializeValuesFeCompressedBit_roundtrip]
  simp only
  by_cases hb : (cfg.subgroupOnly || outSub) = true
  · simp only [hb, eq_self_iff_true, if_true]
    rw [yAndSignX_subgroup_ok hs hcurve (hsubc hb)]
    simp only
    rw [if_neg hneg]
  · simp only [Bool.not_eq_true] at hb
    simp only [hb, Bool.false_eq_true, if_false]
    rw [yAndSignX_full_ok hs hcurve]
    simp only
    rw [if_neg hneg]

theorem roundtripXTimesSignY (sqrt : F → Option F) (hs : SqrtSpec sqrt)
    (cfg : SerializerConfig) (old : Point_axtw) (v : PointView) {x y : F}
    (hnap : v.isNaP = false) (hinf : v.isAtInfinity = false)
    (hvsub : v.isInSubgroup = true)
    (hcurve : onCurveXY x y) (hA : legendreCheckA_affineX x)
    (hb1 : cfg.h1.bits < 2 ^ cfg.h1.len) (hl1 : cfg.h1.len ≤ 256)
    (hfX : (if Sign y < 0 then -x else x).val < 2 ^ (256 - cfg.h1.len)) :
    ∀ n out, serializeXTimesSignY cfg ⟨v, x, y⟩ = .ok n out →
      ∃ P, deserializeXTimesSignY sqrt cfg out UntrustedInput old = .ok n P ∧
        eqModA P ⟨x, y, x * y⟩ := by
  intro n out hser
  have hy := onCurve_y_ne_zero hcurve
  unfold serializeXTimesSignY at hser
  rw [checkPS_none hnap hinf (fun _ => hvsub)] at hser
  simp only at hser
  simp only [SRes.ok.injEq] at hser
  obtain ⟨hn, hout⟩ := hser
  subst hn
  subst hout
  refine ⟨⟨if Sign y < 0 then -x else x, if Sign y < 0 then -y else y,
    (if Sign y < 0 then -x else x) * (if Sign y < 0 then -y else y)⟩, ?_,
    eqModA_normalize x y⟩
  unfold deserializeXTimesSignY
  rw [deserializeValuesHeaderFe_roundtrip cfg.endianLittle cfg.h1 _ hb1 hl1 hfX]
  simp only
  have hXY : onCurveXY (if Sign y < 0 then -x else x)
      (if Sign y < 0 then -y else y) := by
    split_ifs
    · exact onCurve_neg hcurve
    · exact hcurve
  have hAX : legendreCheckA_affineX (if Sign y < 0 then -x else x) := by
    split_ifs
    · exact legendreCheckA_affineX_neg hA
    · exact hA
  rw [xTimesSignY_ok_gen hs hXY (sign_normalize_pos hy) hAX]
  rfl

theorem roundtripYXTimesSignY (cfg : SerializerConfig) (old : Point_axtw)
    (v : PointView) {x y : F}
    (hnap : v.isNaP = false) (hinf : v.isAtInfinity = false)
    (hvsub : v.isInSubgroup = true)
    (hcurve : onCurveXY x y) (hA : legendreCheckA_affineX x)
    (hb1 : cfg.h1.bits < 2 ^ cfg.h1.len) (hl1 : cfg.h1.len ≤ 256)
    (hb2 : cfg.h2.bits < 2 ^ cfg.h2.len) (hl2 : cfg.h2.len ≤ 256)
    (hfY : (if Sign y < 0 then -y else y).val < 2 ^ (256 - cfg.h1.len))
    (hfX : (if Sign y < 0 then -x else x).val < 2 ^ (256 - cfg.h2.len)) :
    ∀ n out, serializeYXTimesSignY cfg ⟨v, x, y⟩ = .ok n out →
      ∃ P, deserializeYXTimesSignY cfg out UntrustedInput old = .ok n P ∧
        eqModA P ⟨x, y, x * y⟩ := by
  intro n out hser
  have hy := onCurve_y_ne_zero hcurve
  unfold serializeYXTimesSignY at hser
  rw [checkPS_none hnap hinf (fun _ => hvsub)] at hser
  simp only at hser
  simp only [SRes.ok.injEq] at hser
  obtain ⟨hn, hout⟩ := hser
  subst hn
  subst hout
  refine ⟨⟨if Sign y < 0 then -x else x, if Sign y < 0 then -y else y,
    (if Sign y < 0 then -x else x) * (if Sign y < 0 then -y else y)⟩, ?_,
    eqModA_normalize x y⟩
  unfold deserializeYXTimesSignY
  rw [deserializeValuesHeaderFeHeaderFe_roundtrip cfg.endianLittle cfg.h1 cfg.h2
    _ _ hb1 hl1 hfY hb2 hl2 hfX]
  simp only
  have hXY : onCurveXY (if Sign y < 0 then -x else x)
      (if Sign y < 0 then -y else y) := by
    split_ifs
    · exact onCurve_neg hcurve
    · exact hcurve
  have hJ : ¬ Jacobi (5 * ((if Sign y < 0 then -x else x) *
      (if Sign y < 0 then -x else x)) + 1) < 0 := by
    have hXX : (if Sign y < 0 then -x else x) * (if Sign y < 0 then -x else x) =
        x * x := by
      split_ifs <;> ring
    rw [hXX]
    rw [show 5 * (x * x) + 1 = 1 - CurveParameterA_fe * x ^ 2 from num_as_A x]
    unfold legendreCheckA_affineX at hA
    omega
  rw [xyTimesSignY_ok_gen hXY (sign_normalize_pos hy) hJ]
  rfl

/-- **Claim C1.**  Round-trip of every basic serializer scheme under an
untrusted deserialization of its own output, for any square-root oracle
satisfying the field contract and any header configuration whose
prefixes fit and leave room for the serialized values.  For the three
plain schemes (`XY`, `XAndSignY`, `YAndSignX`) the original point
`(x, y)` is recovered exactly — also when the configuration or the
output point forces the subgroup check, provided the point passes it;
for the two forced-subgroup schemes (`XTimesSignY`, `YXTimesSignY`) the
decoded point agrees with `(x, y, x·y)` modulo the two-torsion point
`A = (0, -1)`, i.e. up to simultaneous negation of both coordinates. -/
theorem serializeScheme_roundtrip
    (sqrt : F → Option F) (hs : SqrtSpec sqrt) (e1 : F → Bool)
    (cfg : SerializerConfig) (outSub : Bool) (old : Point_axtw)
    (v : PointView) (x y : F)
    (hnap : v.isNaP = false) (hinf : v.isAtInfinity = false)
    (hvs : cfg.subgroupOnly = true → v.isInSubgroup = true)
    (hcurve : onCurveXY x y)
    (hsubc : (cfg.subgroupOnly || outSub) = true → IsInSubgroup e1 x y)
    (hb1 : cfg.h1.bits < 2 ^ cfg.h1.len) (hl1 : cfg.h1.len ≤ 256)
    (hb2 : cfg.h2.bits < 2 ^ cfg.h2.len) (hl2 : cfg.h2.len ≤ 256) :
    (∀ n out, x.val < 2 ^ (256 - cfg.h1.len) → y.val < 2 ^ (256 - cfg.h2.len) →
      serializeScheme .XY cfg ⟨v, x, y⟩ = .ok n out →
      deserializeScheme .XY sqrt e1 cfg out UntrustedInput outSub old =
        .ok n ⟨x, y, x * y⟩) ∧
    (∀ n out, serializeScheme .XAndSignY cfg ⟨v, x, y⟩ = .ok n out →
      deserializeScheme .XAndSignY sqrt e1 cfg out UntrustedInput outSub old =
        .ok n ⟨x, y, x * y⟩) ∧
    (∀ n out, serializeScheme .YAndSignX cfg ⟨v, x, y⟩ = .ok n out →
      deserializeScheme .YAndSignX sqrt e1 cfg out UntrustedInput outSub old =
        .ok n ⟨x, y, x * y⟩) ∧
    (∀ n out, v.isInSubgroup = true → legendreCheckA_affineX x →
      (if Sign y < 0 then -x else x).val < 2 ^ (256 - cfg.h1.len) →
      serializeScheme .XTimesSignY cfg ⟨v, x, y⟩ = .ok n out →
      ∃ P, deserializeScheme .XTimesSignY sqrt e1 cfg out UntrustedInput outSub old =
        .ok n P ∧ eqModA P ⟨x, y, x * y⟩) ∧
    (∀ n out, v.isInSubgroup = true → legendreCheckA_affineX x →
      (if Sign y < 0 then -y else y).val < 2 ^ (256 - cfg.h1.len) →
      (if Sign y < 0 then -x else x).val < 2 ^ (256 - cfg.h2.len) →
      serializeScheme .YXTimesSignY cfg ⟨v, x, y⟩ = .ok n out →
      ∃ P, deserializeScheme .YXTimesSignY sqrt e1 cfg out UntrustedInput outSub old =
        .ok n P ∧ eqModA P ⟨x, y, x * y⟩) := by
  refine ⟨?_, ?_, ?_, ?_, ?_⟩
  · intro n out hfx hfy hser
    exact roundtripXY sqrt e1 cfg outSub old v hnap hinf hvs hcurve hsubc
      hb1 hl1 hb2 hl2 hfx hfy n out hser
  · exact roundtripXAndSignY sqrt hs e1 cfg outSub old v hnap hinf hvs hcurve hsubc
  · exact roundtripYAndSignX sqrt hs e1 cfg outSub old v hnap hinf hvs hcurve hsubc
  · intro n out hvsub hA hfX hser
    exact roundtripXTimesSignY sqrt hs cfg old v hnap hinf hvsub hcurve hA
      hb1 hl1 hfX n out hser
  · intro n out hvsub hA hfY hfX hser
    exact roundtripYXTimesSignY cfg old v hnap hinf hvsub hcurve hA
      hb1 hl1 hb2 hl2 hfY hfX n out hser

theorem serializeScheme_roundtrip_witness :
    serializeScheme .XAndSignY ⟨true, ⟨0, 0⟩, ⟨0, 0⟩, false⟩
        ⟨⟨false, false, true⟩, 0, 1⟩ = .ok 32 (natToBytesLE 32 0) ∧
    deserializeScheme .XAndSignY listSqrt (fun _ => true)
        ⟨true, ⟨0, 0⟩, ⟨0, 0⟩, false⟩ (natToBytesLE 32 0) UntrustedInput false
        ⟨5, 6, 7⟩ = .ok 32 ⟨0, 1, 0 * 1⟩ :=
  ⟨by rfl,
    (serializeScheme_roundtrip listSqrt listSqrt_spec (fun _ => true)
        ⟨true, ⟨0, 0⟩, ⟨0, 0⟩, false⟩ false ⟨5, 6, 7⟩ ⟨false, false, true⟩ 0 1
        rfl rfl (fun h => absurd h (by decide)) (by decide)
        (fun h => absurd h (by decide)) (by decide) (by decide) (by decide)
        (by decide)).2.1 32 (natToBytesLE 32 0) (by rfl)⟩

theorem trusted_untrusted_parity_witness :
    deserializeScheme .XY listSqrt (fun _ => true) ⟨true, ⟨0, 0⟩, ⟨0, 0⟩, false⟩ []
        TrustedInput false Point_axtw.zero = .error 0 .ErrEOF Point_axtw.zero ∧
    deserializeScheme .XY listSqrt (fun _ => true) ⟨true, ⟨0, 0⟩, ⟨0, 0⟩, false⟩ []
        UntrustedInput false Point_axtw.zero = .error 0 .ErrEOF Point_axtw.zero :=
  ⟨by rfl,
    (trusted_untrusted_parity .XY listSqrt listSqrt_spec (fun _ => true)
        ⟨true, ⟨0, 0⟩, ⟨0, 0⟩, false⟩ [] false Point_axtw.zero).2 0 .ErrEOF
      Point_axtw.zero (by rfl)⟩
